import Mathlib

/-!
Verification development for the SMARTCODE collaborative coding server
(src/server.js). The JavaScript source is shallowly embedded: each
in-memory `Map` becomes an insertion-ordered association list, each HTTP
or socket handler becomes a pure function from server state (plus the
environment inputs it reads: uuids, clock, platform, process outcomes)
to the new state and the list of emitted events.
-/

set_option maxHeartbeats 1000000

namespace SmartCode

/-! ## Association lists modelling JavaScript `Map`

`Map.set` updates an existing key in place (preserving insertion order)
or appends a fresh key; `Map.get`/`Map.has` find the entry; `Map.delete`
removes it; iteration follows insertion order. -/

def alookup {α : Type} : List (String × α) → String → Option α
  | [], _ => none
  | p :: rest, k => if p.1 = k then some p.2 else alookup rest k

def acontains {α : Type} (m : List (String × α)) (k : String) : Bool :=
  (alookup m k).isSome

def aset {α : Type} : List (String × α) → String → α → List (String × α)
  | [], k, v => [(k, v)]
  | p :: rest, k, v => if p.1 = k then (k, v) :: rest else p :: aset rest k v

def aerase {α : Type} (m : List (String × α)) (k : String) : List (String × α) :=
  m.filter (fun p => ¬ p.1 = k)

theorem alookup_aset_self {α : Type} (m : List (String × α)) (k : String) (v : α) :
    alookup (aset m k v) k = some v := by
  induction m with
  | nil => simp [aset, alookup]
  | cons p rest ih =>
    by_cases h : p.1 = k
    · simp [aset, alookup, h]
    · simp [aset, alookup, h, ih]

theorem alookup_aset_ne {α : Type} (m : List (String × α)) (k k' : String) (v : α)
    (h : ¬ k = k') : alookup (aset m k v) k' = alookup m k' := by
  induction m with
  | nil => simp [aset, alookup, h]
  | cons p rest ih =>
    by_cases hp : p.1 = k
    · simp [aset, alookup, hp, h]
    · simp only [aset, if_neg hp]
      by_cases hp' : p.1 = k'
      · simp [alookup, hp']
      · simp [alookup, hp', ih]

theorem alookup_aerase_self {α : Type} (m : List (String × α)) (k : String) :
    alookup (aerase m k) k = none := by
  induction m with
  | nil => simp [aerase, alookup]
  | cons p rest ih =>
    by_cases h : p.1 = k
    · simpa [aerase, h] using ih
    · simpa [aerase, alookup, h] using ih

theorem alookup_aerase_ne {α : Type} (m : List (String × α)) (k k' : String)
    (h : ¬ k = k') : alookup (aerase m k) k' = alookup m k' := by
  induction m with
  | nil => simp [aerase, alookup]
  | cons p rest ih =>
    by_cases hp : p.1 = k
    · rw [show aerase (p :: rest) k = aerase rest k by simp [aerase, hp]]
      rw [ih]
      simp [alookup, hp, h]
    · rw [show aerase (p :: rest) k = p :: aerase rest k by simp [aerase, hp]]
      by_cases hp' : p.1 = k'
      · simp [alookup, hp']
      · simp [alookup, hp', ih]

theorem alookup_some_mem {α : Type} {m : List (String × α)} {k : String} {v : α}
    (h : alookup m k = some v) : (k, v) ∈ m := by
  induction m with
  | nil => simp [alookup] at h
  | cons p rest ih =>
    by_cases hp : p.1 = k
    · simp only [alookup, if_pos hp] at h
      obtain ⟨p1, p2⟩ := p
      injection h with h2
      simp only at hp
      subst hp
      subst h2
      exact List.mem_cons_self _ _
    · simp only [alookup, if_neg hp] at h
      exact List.mem_cons_of_mem _ (ih h)

theorem alookup_eq_none_iff {α : Type} (m : List (String × α)) (k : String) :
    alookup m k = none ↔ k ∉ m.map Prod.fst := by
  induction m with
  | nil => simp [alookup]
  | cons p rest ih =>
    by_cases hp : p.1 = k
    · simp [alookup, hp]
    · simp only [alookup, if_neg hp, List.map_cons, List.mem_cons]
      rw [ih]
      constructor
      · intro hnot hmem
        rcases hmem with h1 | h2
        · exact hp h1.symm
        · exact hnot h2
      · intro hnot hmem
        exact hnot (Or.inr hmem)

theorem alookup_isSome_of_some {α : Type} {m : List (String × α)} {k : String} {v : α}
    (h : alookup m k = some v) : acontains m k = true := by
  simp [acontains, h]

/-! ## JavaScript-style truthiness helpers

A request-body field is modelled as `Option String`: `none` is an absent
field (`undefined`), and both `undefined` and the empty string are falsy. -/

def jsFalsy (o : Option String) : Bool :=
  match o with
  | none => true
  | some s => s = ""

/-- Models the JS expression `x || d` for a string `x` and default `d`. -/
def jsOr (o : Option String) (d : String) : String :=
  match o with
  | none => d
  | some s => if s = "" then d else s

/-! ## Shared code snippets (`/api/share`, `GET /api/share/:codeId`)

`sharedCodes` maps a uuid to the stored snippet. The `code` and
`language` fields are stored exactly as received, including when absent. -/

structure SharedCode where
  code : Option String
  language : Option String
  title : String
  createdAt : Nat
deriving DecidableEq, Repr, Inhabited

structure ShareResponse where
  codeId : String
  shareUrl : String
deriving DecidableEq, Repr

/-- Result of `GET /api/share/:codeId`: the snippet as JSON, or a 404 with
a JSON error body. -/
inductive GetShareResult where
  | found (status : Nat) (snippet : SharedCode)
  | notFound (status : Nat) (error : String)
deriving DecidableEq, Repr

/-- Handler for `POST /api/share`: always stores the snippet under the
fresh uuid and responds with the id and share URL; no validation. -/
def apiShare (sharedCodes : List (String × SharedCode))
    (code language title : Option String) (uuid : String) (now : Nat) :
    List (String × SharedCode) × ShareResponse :=
  (aset sharedCodes uuid
     { code := code, language := language, title := jsOr title "Untitled", createdAt := now },
   { codeId := uuid, shareUrl := "/share/" ++ uuid })

/-- Handler for `GET /api/share/:codeId`. -/
def apiGetShare (sharedCodes : List (String × SharedCode)) (codeId : String) :
    GetShareResult :=
  match alookup sharedCodes codeId with
  | some s => .found 200 s
  | none => .notFound 404 "Shared code not found"

/-! ## Java class-name extraction (`extractJavaClassName`)

The source scans the submitted code with the JS regex
`public\s+class\s+(\w+)` and returns the first capture, or `Main` when
there is no match. The scan is embedded directly: `\s` and `\w` are the
JS character classes, the engine tries start positions left to right,
and because the whitespace/word classes are disjoint from the literals
that follow them, the greedy quantifiers match exactly the maximal runs. -/

def jsSpace (c : Char) : Bool :=
  c = ' ' || c = '\t' || c = '\n' || c = '\x0b' || c = '\x0c' || c = '\r' ||
  c = '\u00a0' || c = '\u1680' || ('\u2000' ≤ c && c ≤ '\u200a') ||
  c = '\u2028' || c = '\u2029' || c = '\u202f' || c = '\u205f' ||
  c = '\u3000' || c = '\ufeff'

def jsWordChar (c : Char) : Bool :=
  ('a' ≤ c && c ≤ 'z') || ('A' ≤ c && c ≤ 'Z') || ('0' ≤ c && c ≤ '9') || c = '_'

/-- Consume an exact literal at the head of the input. -/
def dropLit : List Char → List Char → Option (List Char)
  | [], cs => some cs
  | _ :: _, [] => none
  | l :: ls, c :: cs => if c = l then dropLit ls cs else none

/-- Consume `\s+`: at least one whitespace character, then the maximal run. -/
def dropSpaces1 : List Char → Option (List Char)
  | [] => none
  | c :: rest => if jsSpace c then some (rest.dropWhile jsSpace) else none

/-- Try the regex `public\s+class\s+(\w+)` anchored at the head of the
input; return the captured identifier characters on success. -/
def matchPubClass (cs : List Char) : Option (List Char) :=
  (dropLit "public".data cs).bind fun r1 =>
  (dropSpaces1 r1).bind fun r2 =>
  (dropLit "class".data r2).bind fun r3 =>
  (dropSpaces1 r3).bind fun r4 =>
  if (r4.takeWhile jsWordChar).isEmpty then none else some (r4.takeWhile jsWordChar)

/-- Unanchored search: try every start position left to right, as the JS
regex engine does for `String.prototype.match`. -/
def searchPubClass : List Char → Option (List Char)
  | [] => none
  | c :: cs =>
    match matchPubClass (c :: cs) with
    | some w => some w
    | none => searchPubClass cs

/-- `extractJavaClassName` from the source: first capture of
`public\s+class\s+(\w+)`, defaulting to `Main`. -/
def extractJavaClassName (code : String) : String :=
  match searchPubClass code.data with
  | some w => String.mk w
  | none => "Main"

/-! ### Declarative reading of the regex

`PubClassAt cs name` says the text `cs` starts with a `public class`
declaration whose identifier is `name`: the literal `public`, a nonempty
whitespace run, the literal `class`, a nonempty whitespace run, then the
maximal nonempty word-character run `name`. This is the specification
side against which the executable scanner is proved correct. -/

def PubClassAt (cs name : List Char) : Prop :=
  ∃ s1 s2 rest,
    cs = "public".data ++ s1 ++ "class".data ++ s2 ++ name ++ rest ∧
    s1 ≠ [] ∧ (∀ c ∈ s1, jsSpace c = true) ∧
    s2 ≠ [] ∧ (∀ c ∈ s2, jsSpace c = true) ∧
    name ≠ [] ∧ (∀ c ∈ name, jsWordChar c = true) ∧
    (∀ c, rest.head? = some c → jsWordChar c = false)

theorem dropLit_sound : ∀ (l cs r : List Char), dropLit l cs = some r → cs = l ++ r
  | [], cs, r, h => by simpa [dropLit] using (by simpa [dropLit] using h : cs = r)
  | _ :: _, [], _, h => by simp [dropLit] at h
  | l :: ls, c :: cs, r, h => by
    by_cases hc : c = l
    · simp only [dropLit, if_pos hc] at h
      simp [hc, dropLit_sound ls cs r h]
    · simp [dropLit, hc] at h

theorem dropLit_append (l r : List Char) : dropLit l (l ++ r) = some r := by
  induction l with
  | nil => simp [dropLit]
  | cons c ls ih => simp [dropLit, ih]

theorem dropWhile_append_eq {p : Char → Bool} {l r : List Char}
    (hl : ∀ c ∈ l, p c = true) (hr : ∀ c, r.head? = some c → p c = false) :
    (l ++ r).dropWhile p = r := by
  induction l with
  | nil =>
    cases r with
    | nil => rfl
    | cons c cs =>
      have := hr c rfl
      simp [List.dropWhile, this]
  | cons a l ih =>
    have ha := hl a (List.mem_cons_self _ _)
    simp only [List.cons_append, List.dropWhile, ha]
    exact ih (fun c hc => hl c (List.mem_cons_of_mem _ hc))

theorem takeWhile_append_eq {p : Char → Bool} {l r : List Char}
    (hl : ∀ c ∈ l, p c = true) (hr : ∀ c, r.head? = some c → p c = false) :
    (l ++ r).takeWhile p = l := by
  induction l with
  | nil =>
    cases r with
    | nil => rfl
    | cons c cs =>
      have := hr c rfl
      simp [List.takeWhile, this]
  | cons a l ih =>
    have ha := hl a (List.mem_cons_self _ _)
    simp only [List.cons_append, List.takeWhile, ha]
    exact congrArg _ (ih (fun c hc => hl c (List.mem_cons_of_mem _ hc)))

theorem head?_dropWhile_false {p : Char → Bool} (l : List Char) :
    ∀ c, (l.dropWhile p).head? = some c → p c = false := by
  induction l with
  | nil => intro c h; simp [List.dropWhile] at h
  | cons a l ih =>
    intro c h
    by_cases ha : p a
    · simp only [List.dropWhile, ha] at h
      exact ih c h
    · simp only [List.dropWhile, Bool.not_eq_true] at ha
      simp only [List.dropWhile, ha] at h
      injection h with h
      subst h
      exact ha

theorem word_not_space {c : Char} (h : jsWordChar c = true) : jsSpace c = false := by
  have hbounds : ('0' : Char) ≤ c ∧ c ≤ ('z' : Char) := by
    simp only [jsWordChar, Bool.or_eq_true, Bool.and_eq_true, decide_eq_true_eq] at h
    rcases h with ((⟨h1, h2⟩ | ⟨h1, h2⟩) | ⟨h1, h2⟩) | h1
    · exact ⟨le_trans (by decide) h1, h2⟩
    · exact ⟨le_trans (by decide) h1, le_trans h2 (by decide)⟩
    · exact ⟨h1, le_trans h2 (by decide)⟩
    · subst h1; exact ⟨by decide, by decide⟩
  obtain ⟨hlo, hhi⟩ := hbounds
  cases hsp : jsSpace c with
  | false => rfl
  | true =>
    exfalso
    simp only [jsSpace, Bool.or_eq_true, Bool.and_eq_true, decide_eq_true_eq] at hsp
    rcases hsp with ((((((((((((((h1 | h1) | h1) | h1) | h1) | h1) | h1) | h1) |
        ⟨h1, h2⟩) | h1) | h1) | h1) | h1) | h1) | h1)
    all_goals first
      | (subst h1; revert hlo; decide)
      | (subst h1; revert hhi; decide)
      | (exact absurd (le_trans h1 hhi) (by decide))

theorem matchPubClass_eq_some_iff {cs w : List Char} :
    matchPubClass cs = some w ↔ PubClassAt cs w := by
  constructor
  · intro h
    simp only [matchPubClass, Option.bind_eq_some] at h
    obtain ⟨r1, h1, r2, h2, r3, h3, r4, h4, h5⟩ := h
    have hcs : cs = "public".data ++ r1 := dropLit_sound _ _ _ h1
    cases r1 with
    | nil => simp [dropSpaces1] at h2
    | cons a rest1 =>
      by_cases ha : jsSpace a
      · simp only [dropSpaces1, if_pos ha] at h2
        injection h2 with h2
        have hr23 : r2 = "class".data ++ r3 := dropLit_sound _ _ _ h3
        cases r3 with
        | nil => simp [dropSpaces1] at h4
        | cons b rest3 =>
          by_cases hb : jsSpace b
          · simp only [dropSpaces1, if_pos hb] at h4
            injection h4 with h4
            by_cases hempty : r4.takeWhile jsWordChar = []
            · simp [hempty] at h5
            · rw [if_neg (by simpa [List.isEmpty_iff] using hempty)] at h5
              injection h5 with h5
              have hrest1 : rest1 = rest1.takeWhile jsSpace ++ ("class".data ++ (b :: rest3)) := by
                conv_lhs => rw [← List.takeWhile_append_dropWhile jsSpace rest1]
                rw [h2, hr23]
              have hrest3 : rest3 =
                  rest3.takeWhile jsSpace ++ (r4.takeWhile jsWordChar ++ r4.dropWhile jsWordChar) := by
                conv_lhs => rw [← List.takeWhile_append_dropWhile jsSpace rest3]
                rw [h4, List.takeWhile_append_dropWhile]
              refine ⟨a :: rest1.takeWhile jsSpace, b :: rest3.takeWhile jsSpace,
                r4.dropWhile jsWordChar, ?_, by simp, ?_, by simp, ?_, ?_, ?_, ?_⟩
              · rw [hcs, ← h5]
                conv_lhs => rw [hrest1]
                conv_lhs => rw [hrest3]
                simp
              · intro c hc
                rcases List.mem_cons.mp hc with rfl | hc
                · exact ha
                · exact List.mem_takeWhile_imp hc
              · intro c hc
                rcases List.mem_cons.mp hc with rfl | hc
                · exact hb
                · exact List.mem_takeWhile_imp hc
              · rw [← h5]; exact hempty
              · intro c hc
                rw [← h5] at hc
                exact List.mem_takeWhile_imp hc
              · exact fun c hc => head?_dropWhile_false r4 c hc
          · simp [dropSpaces1, hb] at h4
      · simp [dropSpaces1, ha] at h2
  · rintro ⟨s1, s2, rest, hcs, hs1ne, hs1, hs2ne, hs2, hwne, hword, hrest⟩
    cases s1 with
    | nil => exact absurd rfl hs1ne
    | cons a s1' =>
      cases s2 with
      | nil => exact absurd rfl hs2ne
      | cons b s2' =>
        cases w with
        | nil => exact absurd rfl hwne
        | cons n0 w' =>
          have ha : jsSpace a = true := hs1 a (List.mem_cons_self _ _)
          have hb : jsSpace b = true := hs2 b (List.mem_cons_self _ _)
          have hn0 : jsWordChar n0 = true := hword n0 (List.mem_cons_self _ _)
          have hcs' : cs = "public".data ++
              ((a :: s1') ++ ("class".data ++ ((b :: s2') ++ ((n0 :: w') ++ rest)))) := by
            rw [hcs]; simp
          have e1 : dropLit "public".data cs =
              some ((a :: s1') ++ ("class".data ++ ((b :: s2') ++ ((n0 :: w') ++ rest)))) := by
            rw [hcs']; exact dropLit_append _ _
          have e2 : dropSpaces1 ((a :: s1') ++ ("class".data ++ ((b :: s2') ++ ((n0 :: w') ++ rest)))) =
              some ("class".data ++ ((b :: s2') ++ ((n0 :: w') ++ rest))) := by
            rw [List.cons_append]
            simp only [dropSpaces1, if_pos ha, Option.some.injEq]
            exact dropWhile_append_eq (fun c hc => hs1 c (List.mem_cons_of_mem _ hc))
              (fun c hc => by injection hc with hc; subst hc; decide)
          have e3 : dropLit "class".data ("class".data ++ ((b :: s2') ++ ((n0 :: w') ++ rest))) =
              some ((b :: s2') ++ ((n0 :: w') ++ rest)) := dropLit_append _ _
          have e4 : dropSpaces1 ((b :: s2') ++ ((n0 :: w') ++ rest)) =
              some ((n0 :: w') ++ rest) := by
            rw [List.cons_append]
            simp only [dropSpaces1, if_pos hb, Option.some.injEq]
            exact dropWhile_append_eq (fun c hc => hs2 c (List.mem_cons_of_mem _ hc))
              (fun c hc => by injection hc with hc; subst hc; exact word_not_space hn0)
          have e5 : ((n0 :: w') ++ rest).takeWhile jsWordChar = n0 :: w' :=
            takeWhile_append_eq hword hrest
          simp only [matchPubClass, e1, Option.some_bind, e2, e3, e4, e5]
          simp

theorem matchPubClass_none_not_decl {cs : List Char} (h : matchPubClass cs = none) :
    ∀ n, ¬ PubClassAt cs n := by
  intro n hn
  rw [(matchPubClass_eq_some_iff).mpr hn] at h
  exact Option.noConfusion h

theorem searchPubClass_some_decl : ∀ {cs w : List Char}, searchPubClass cs = some w →
    ∃ i, PubClassAt (cs.drop i) w ∧ ∀ j, j < i → ∀ n, ¬ PubClassAt (cs.drop j) n := by
  intro cs
  induction cs with
  | nil => intro w h; simp [searchPubClass] at h
  | cons c cs' ih =>
    intro w h
    simp only [searchPubClass] at h
    cases hm : matchPubClass (c :: cs') with
    | some w' =>
      rw [hm] at h
      injection h with h
      subst h
      exact ⟨0, (matchPubClass_eq_some_iff).mp hm, fun j hj => absurd hj (Nat.not_lt_zero j)⟩
    | none =>
      rw [hm] at h
      obtain ⟨i, hdecl, hmin⟩ := ih h
      refine ⟨i + 1, by simpa using hdecl, ?_⟩
      intro j hj n
      cases j with
      | zero => exact matchPubClass_none_not_decl hm n
      | succ j' =>
        simp only [List.drop_succ_cons]
        exact hmin j' (Nat.lt_of_succ_lt_succ hj) n

theorem searchPubClass_none_decl : ∀ {cs : List Char}, searchPubClass cs = none →
    ∀ i n, ¬ PubClassAt (cs.drop i) n := by
  intro cs
  induction cs with
  | nil =>
    intro _ i n hn
    obtain ⟨s1, s2, rest, hcs, -⟩ := hn
    simp at hcs
  | cons c cs' ih =>
    intro h i n
    simp only [searchPubClass] at h
    cases hm : matchPubClass (c :: cs') with
    | some w' => rw [hm] at h; exact Option.noConfusion h
    | none =>
      rw [hm] at h
      cases i with
      | zero => exact matchPubClass_none_not_decl hm n
      | succ i' =>
        simp only [List.drop_succ_cons]
        exact ih h i' n

theorem searchPubClass_ne_nil : ∀ {cs w : List Char}, searchPubClass cs = some w → w ≠ [] := by
  intro cs
  induction cs with
  | nil => intro w h; simp [searchPubClass] at h
  | cons c cs' ih =>
    intro w h
    simp only [searchPubClass] at h
    cases hm : matchPubClass (c :: cs') with
    | some w' =>
      rw [hm] at h
      injection h with h
      subst h
      have := (matchPubClass_eq_some_iff).mp hm
      obtain ⟨-, -, -, -, -, -, -, -, hne, -⟩ := this
      exact hne
    | none => rw [hm] at h; exact ih h

theorem searchPubClass_words : ∀ {cs w : List Char}, searchPubClass cs = some w →
    ∀ c ∈ w, jsWordChar c = true := by
  intro cs
  induction cs with
  | nil => intro w h; simp [searchPubClass] at h
  | cons c cs' ih =>
    intro w h
    simp only [searchPubClass] at h
    cases hm : matchPubClass (c :: cs') with
    | some w' =>
      rw [hm] at h
      injection h with h
      subst h
      have := (matchPubClass_eq_some_iff).mp hm
      obtain ⟨-, -, -, -, -, -, -, -, -, hword, -⟩ := this
      exact hword
    | none => rw [hm] at h; exact ih h

theorem extractJavaClassName_ne_empty (code : String) :
    ¬ extractJavaClassName code = "" := by
  unfold extractJavaClassName
  cases hs : searchPubClass code.data with
  | none => decide
  | some w =>
    have hne := searchPubClass_ne_nil hs
    intro hc
    have : w = [] := by
      have := congrArg String.data hc
      simpa using this
    exact hne this

/-! ## Temp workspace and `/api/run`

The filesystem is modelled as the list of file paths that exist under the
server directory; directories are not tracked (the `temp` directory is
created on demand and never removed). Paths are joined with `/`. -/

def pathJoin (d f : String) : String := d ++ "/" ++ f

/-- `path.dirname`: everything before the final slash, or `.` when the
path has no slash (only those two cases arise in the embedded code). -/
def dirname (p : String) : String :=
  match p.data.reverse.dropWhile (fun c => ¬ c = '/') with
  | [] => "."
  | _ :: rest => String.mk rest.reverse

def insertFile (fs : List String) (p : String) : List String :=
  if p ∈ fs then fs else fs ++ [p]

def removeFile (fs : List String) (p : String) : List String :=
  fs.filter (fun q => ¬ q = p)

structure TempFileResult where
  filePath : String
  fileName : String
  className : Option String
deriving DecidableEq, Repr

/-- `createTempFile(code, language)`: writes the source into the `temp`
directory. For Java the file is named after the extracted class name;
otherwise it is `temp_<Date.now()>` plus the extension for the language
(`.txt` for an unknown language). Returns the descriptor and the new
filesystem. -/
def createTempFile (fs : List String) (code language : String) (now : Nat) :
    TempFileResult × List String :=
  if language = "java" then
    let className := jsOr (some (extractJavaClassName code)) "Main"
    let javaFileName := className ++ ".java"
    let javaFilePath := pathJoin "temp" javaFileName
    ({ filePath := javaFilePath, fileName := javaFileName, className := some className },
     insertFile fs javaFilePath)
  else
    let ext :=
      if language = "python" then ".py"
      else if language = "javascript" then ".js"
      else if language = "cpp" then ".cpp"
      else ".txt"
    let fileName := "temp_" ++ toString now ++ ext
    let filePath := pathJoin "temp" fileName
    ({ filePath := filePath, fileName := fileName, className := none },
     insertFile fs filePath)

/-- The dispatch table `commands[language]`: `none` when the language is
unsupported. `win32` is `process.platform === "win32"`. -/
def commandFor (language : String) (t : TempFileResult) (win32 : Bool) : Option String :=
  if language = "python" then
    some (if win32 then "python \"" ++ t.filePath ++ "\""
          else "python3 \"" ++ t.filePath ++ "\"")
  else if language = "javascript" then
    some ("node \"" ++ t.filePath ++ "\"")
  else if language = "java" then
    some ("cd \"" ++ dirname t.filePath ++ "\" && javac \"" ++ t.fileName ++
          "\" && java " ++ (t.className.getD "undefined"))
  else if language = "cpp" then
    some (if win32 then
            "cd \"" ++ dirname t.filePath ++ "\" && g++ \"" ++ t.fileName ++
            "\" -o output.exe && output.exe"
          else
            "cd \"" ++ dirname t.filePath ++ "\" && g++ \"" ++ t.fileName ++
            "\" -o output && ./output")
  else none

def supportedLanguage (language : String) : Bool :=
  language = "python" || language = "javascript" || language = "java" || language = "cpp"

/-- Outcome of the spawned toolchain process, as observed by the `exec`
callback. `exitCode`/`killed` determine whether the callback `error`
argument is non-null (Node sets it exactly on nonzero exit, signal kill,
or the wall-clock timeout kill); `errorMessage` is that error object
message. `producesArtifact` records whether the toolchain wrote its
compiled artifact (the cpp binary / the Java class file) before the
callback ran. -/
structure ExecOutcome where
  exitCode : Nat
  killed : Bool
  errorMessage : String
  stdout : String
  stderr : String
  producesArtifact : Bool
deriving DecidableEq, Repr

/-- The `exec` callback `error` argument is truthy. -/
def execErrored (o : ExecOutcome) : Bool :=
  o.killed || !(o.exitCode == 0)

structure RunResponse where
  success : Bool
  output : String
  error : Bool
deriving DecidableEq, Repr

inductive RunResult where
  | badRequest (error : String)
  | completed (resp : RunResponse)
deriving DecidableEq, Repr

/-- The response built inside the `exec` callback: on a truthy `error`
the body is `{success:false, output: stderr || error.message}`, otherwise
`{success:true, output: stdout || placeholder}`. -/
def runCallback (o : ExecOutcome) : RunResponse :=
  if execErrored o then
    { success := false,
      output := if o.stderr = "" then o.errorMessage else o.stderr,
      error := true }
  else
    { success := true,
      output := if o.stdout = "" then "Program executed successfully (no output)" else o.stdout,
      error := false }

/-- The path of the compiled artifact the toolchain writes next to the
source file (cpp binary / Java class file), when the language has one. -/
def artifactPath (language : String) (t : TempFileResult) (win32 : Bool) : Option String :=
  if language = "cpp" then
    some (pathJoin "temp" (if win32 then "output.exe" else "output"))
  else if language = "java" then
    some (pathJoin "temp" ((t.className.getD "undefined") ++ ".class"))
  else none

/-- Handler for `POST /api/run`. `unlinkOk p` tells whether
`fs.unlinkSync(p)` succeeds; a throw aborts the rest of the cleanup `try`
block and is swallowed by the `catch`. The temp file is created before
the command lookup, exactly as in the source. -/
def apiRun (fs : List String) (code language : Option String) (now : Nat)
    (win32 : Bool) (o : ExecOutcome) (unlinkOk : String → Bool) :
    List String × RunResult :=
  if jsFalsy code || jsFalsy language then
    (fs, .badRequest "Code and language are required")
  else
    let codeS := code.getD ""
    let langS := language.getD ""
    let (t, fs1) := createTempFile fs codeS langS now
    match commandFor langS t win32 with
    | none => (fs1, .badRequest "Unsupported language")
    | some _cmd =>
      let fs2 :=
        match artifactPath langS t win32 with
        | some a => if o.producesArtifact then insertFile fs1 a else fs1
        | none => fs1
      let fs3 :=
        if unlinkOk t.filePath then
          let fsA := removeFile fs2 t.filePath
          if langS = "cpp" then
            let outputPath := pathJoin (dirname t.filePath) "output"
            if outputPath ∈ fsA then
              (if unlinkOk outputPath then removeFile fsA outputPath else fsA)
            else fsA
          else if langS = "java" then
            let classPath := pathJoin (dirname t.filePath)
              ((t.className.getD "undefined") ++ ".class")
            if classPath ∈ fsA then
              (if unlinkOk classPath then removeFile fsA classPath else fsA)
            else fsA
          else fsA
        else fs2
      (fs3, .completed (runCallback o))

/-! ## Realtime state: pair sessions, study groups, rooms

`pairSessions` holds its session objects directly (each object is
referenced from exactly one map). The same study-group object is stored
under its id in both `studyGroups` (live registry) and
`globalStudyGroups` (global directory); to model that shared mutable
object the group objects live in a heap (`groupHeap`, indexed by
allocation order) and the two maps store heap references, so a mutation
through one map is visible through the other exactly as in JavaScript.
`rooms` is the socket.io room membership (`socket.join`). The video-call
handlers touch only the `videoCalls`/`userSessions` maps and never these
registries, so they are not modelled. -/

structure ChatMessage where
  id : String
  text : String
  username : String
  timestamp : Nat
deriving DecidableEq, Repr, Inhabited

structure GroupUser where
  id : String
  name : String
deriving DecidableEq, Repr, Inhabited

structure Group where
  id : String
  name : String
  createdAt : Nat
  users : List GroupUser
  code : String
  language : String
  messages : List ChatMessage
  questions : List ChatMessage
deriving DecidableEq, Repr, Inhabited

structure PairSession where
  code : String
  language : String
  users : List String
deriving DecidableEq, Repr, Inhabited

structure ServerState where
  sharedCodes : List (String × SharedCode)
  pairSessions : List (String × PairSession)
  studyGroups : List (String × Nat)
  globalStudyGroups : List (String × Nat)
  groupHeap : List Group
  rooms : List (String × List String)
deriving DecidableEq, Repr, Inhabited

def initialState : ServerState :=
  { sharedCodes := [], pairSessions := [], studyGroups := [],
    globalStudyGroups := [], groupHeap := [], rooms := [] }

def heapGet (st : ServerState) (r : Nat) : Group :=
  st.groupHeap.getD r default

def heapSet (st : ServerState) (r : Nat) (g : Group) : ServerState :=
  { st with groupHeap := st.groupHeap.set r g }

/-- `socket.join(roomId)`: socket.io room membership is a set. -/
def addToRoom (rooms : List (String × List String)) (roomId sid : String) :
    List (String × List String) :=
  match alookup rooms roomId with
  | some members => if sid ∈ members then rooms else aset rooms roomId (members ++ [sid])
  | none => aset rooms roomId [sid]

def roomMembers (st : ServerState) (roomId : String) : List String :=
  (alookup st.rooms roomId).getD []

/-- Removal of the first element satisfying a predicate, as done by
`indexOf`/`findIndex` followed by `splice(i, 1)`. -/
def eraseFirstP {α : Type} (p : α → Bool) : List α → List α
  | [] => []
  | x :: xs => if p x then xs else x :: eraseFirstP p xs

/-- Event targets of the socket.io emit calls in the source. -/
inductive Target where
  | toSocket (sid : String)
  | toRoomExcept (roomId sid : String)
  | toRoomAll (roomId : String)
  | toAll
deriving DecidableEq, Repr

inductive EmitPayload where
  | sessionState (code language : String)
  | userJoined (sid : String)
  | codeUpdate (code : String) (language : Option String)
  | groupState (code language : String) (messages questions : List ChatMessage)
      (users : List GroupUser) (groupName : String)
  | userJoinedGroup (id name : String)
  | groupUpdated (id : String) (userCount : Nat)
  | groupCodeUpdate (code : String) (language : Option String)
  | newMessage (m : ChatMessage)
  | newQuestion (q : ChatMessage)
  | userLeft (sid : String)
  | userLeftGroup (u : GroupUser)
  | groupRemoved (groupId : String)
deriving DecidableEq, Repr

structure Emit where
  target : Target
  event : String
  payload : EmitPayload
deriving DecidableEq, Repr

/-- The connections an emit is delivered to. `toAll` (`io.emit`) reaches
every connected client, supplied as `connected`. -/
def recipients (st : ServerState) (connected : List String) (t : Target) : List String :=
  match t with
  | .toSocket sid => [sid]
  | .toRoomExcept roomId sid => (roomMembers st roomId).filter (fun m => ¬ m = sid)
  | .toRoomAll roomId => roomMembers st roomId
  | .toAll => connected

def pairWelcome : String :=
  "// Welcome to pair programming!\n// Start coding together..."

def groupWelcome : String :=
  "// Welcome to the study group!\n// Collaborate and learn together..."

/-- Handler for `POST /api/groups`: creates the group object and stores it
in both registries. `uuid8` models `uuidv4().substr(0, 8)`. -/
def apiCreateGroup (st : ServerState) (name : Option String) (uuid8 : String) (now : Nat) :
    ServerState × String :=
  let groupId := uuid8
  let newGroup : Group :=
    { id := groupId, name := jsOr name ("Study Group " ++ groupId), createdAt := now,
      users := [], code := groupWelcome, language := "javascript",
      messages := [], questions := [] }
  let r := st.groupHeap.length
  ({ st with groupHeap := st.groupHeap ++ [newGroup],
             globalStudyGroups := aset st.globalStudyGroups groupId r,
             studyGroups := aset st.studyGroups groupId r }, groupId)

/-- `GET /api/groups`: the listing of the global directory. -/
structure GroupListing where
  id : String
  name : String
  userCount : Nat
  createdAt : Nat
deriving DecidableEq, Repr

def listStudyGroups (st : ServerState) : List GroupListing :=
  st.globalStudyGroups.map (fun p =>
    let g := heapGet st p.2
    { id := p.1, name := g.name, userCount := g.users.length, createdAt := g.createdAt })

/-- Handler for the `join-pair-session` socket event. -/
def joinPairSession (st : ServerState) (sid sessionId : String) :
    ServerState × List Emit :=
  let rooms1 := addToRoom st.rooms sessionId sid
  let sessions1 :=
    if acontains st.pairSessions sessionId then st.pairSessions
    else aset st.pairSessions sessionId
      { code := pairWelcome, language := "javascript", users := [] }
  match alookup sessions1 sessionId with
  | some session =>
    let session' := { session with users := session.users ++ [sid] }
    ({ st with rooms := rooms1, pairSessions := aset sessions1 sessionId session' },
     [{ target := .toSocket sid, event := "session-state",
        payload := .sessionState session'.code session'.language },
      { target := .toRoomExcept sessionId sid, event := "user-joined",
        payload := .userJoined sid }])
  | none => ({ st with rooms := rooms1, pairSessions := sessions1 }, [])

/-- Handler for the `code-change` socket event. -/
def codeChange (st : ServerState) (sid sessionId code : String)
    (language : Option String) : ServerState × List Emit :=
  match alookup st.pairSessions sessionId with
  | some session =>
    let session' :=
      { session with
        code := code,
        language := if jsFalsy language then session.language else language.getD "" }
    ({ st with pairSessions := aset st.pairSessions sessionId session' },
     [{ target := .toRoomExcept sessionId sid, event := "code-update",
        payload := .codeUpdate code language }])
  | none => (st, [])

/-- Handler for the `join-study-group` socket event: consult the global
directory first, fall back to ad hoc creation, then push the new member
onto the shared group object. -/
def joinStudyGroup (st : ServerState) (sid groupId : String) (now : Nat) :
    ServerState × List Emit :=
  let rooms1 := addToRoom st.rooms groupId sid
  let (st1, r) :=
    match alookup st.globalStudyGroups groupId with
    | some r =>
      ({ st with rooms := rooms1,
                 studyGroups :=
                   if acontains st.studyGroups groupId then st.studyGroups
                   else aset st.studyGroups groupId r }, r)
    | none =>
      let g : Group :=
        { id := groupId, name := "Study Group " ++ groupId, createdAt := now,
          users := [], code := groupWelcome, language := "javascript",
          messages := [], questions := [] }
      let r := st.groupHeap.length
      ({ st with rooms := rooms1,
                 groupHeap := st.groupHeap ++ [g],
                 globalStudyGroups := aset st.globalStudyGroups groupId r,
                 studyGroups := aset st.studyGroups groupId r }, r)
  let g := heapGet st1 r
  let newUser : GroupUser := { id := sid, name := "User" ++ toString (g.users.length + 1) }
  let g' := { g with users := g.users ++ [newUser] }
  let st2 := heapSet st1 r g'
  (st2,
   [{ target := .toSocket sid, event := "group-state",
      payload := .groupState g'.code g'.language g'.messages g'.questions g'.users g'.name },
    { target := .toRoomExcept groupId sid, event := "user-joined-group",
      payload := .userJoinedGroup sid ("User" ++ toString g'.users.length) },
    { target := .toAll, event := "group-updated",
      payload := .groupUpdated groupId g'.users.length }])

/-- Handler for the `group-code-change` socket event. -/
def groupCodeChange (st : ServerState) (sid groupId code : String)
    (language : Option String) : ServerState × List Emit :=
  match alookup st.studyGroups groupId with
  | some r =>
    let g := heapGet st r
    let g' :=
      { g with
        code := code,
        language := if jsFalsy language then g.language else language.getD "" }
    (heapSet st r g',
     [{ target := .toRoomExcept groupId sid, event := "group-code-update",
        payload := .groupCodeUpdate code language }])
  | none => (st, [])

/-- Handler for the `send-message` socket event: append to the log and
deliver to the whole room, sender included (`io.to(groupId).emit`). -/
def sendMessage (st : ServerState) (sid groupId message : String)
    (username : Option String) (uuid : String) (now : Nat) : ServerState × List Emit :=
  match alookup st.studyGroups groupId with
  | some r =>
    let g := heapGet st r
    let msgData : ChatMessage :=
      { id := uuid, text := message, username := jsOr username "Anonymous", timestamp := now }
    let g' := { g with messages := g.messages ++ [msgData] }
    (heapSet st r g',
     [{ target := .toRoomAll groupId, event := "new-message", payload := .newMessage msgData }])
  | none => (st, [])

/-- Handler for the `add-question` socket event. -/
def addQuestion (st : ServerState) (sid groupId question : String)
    (username : Option String) (uuid : String) (now : Nat) : ServerState × List Emit :=
  match alookup st.studyGroups groupId with
  | some r =>
    let g := heapGet st r
    let questionData : ChatMessage :=
      { id := uuid, text := question, username := jsOr username "Anonymous", timestamp := now }
    let g' := { g with questions := g.questions ++ [questionData] }
    (heapSet st r g',
     [{ target := .toRoomAll groupId, event := "new-question",
        payload := .newQuestion questionData }])
  | none => (st, [])

/-- One step of the `studyGroups.forEach` loop in the disconnect handler,
for the group id `gid`: remove the first member entry with the socket id,
and when the group becomes empty delete it from both registries. -/
def discGroupStep (sid : String) (acc : ServerState × List Emit) (gid : String) :
    ServerState × List Emit :=
  let st := acc.1
  match alookup st.studyGroups gid with
  | some r =>
    let g := heapGet st r
    if (g.users.map GroupUser.id).contains sid then
      let user := (g.users.filter (fun u => u.id = sid)).headD default
      let users' := eraseFirstP (fun u => u.id = sid) g.users
      let st1 := heapSet st r { g with users := users' }
      let emits1 := acc.2 ++
        [{ target := .toRoomExcept gid sid, event := "user-left-group",
           payload := .userLeftGroup user },
         { target := .toAll, event := "group-updated",
           payload := .groupUpdated gid users'.length }]
      if users'.length = 0 then
        ({ st1 with globalStudyGroups := aerase st1.globalStudyGroups gid,
                    studyGroups := aerase st1.studyGroups gid },
         emits1 ++ [{ target := .toAll, event := "group-removed",
                      payload := .groupRemoved gid }])
      else (st1, emits1)
    else acc
  | none => acc

/-- The pair-session sweep of the disconnect handler: remove the first
occurrence of the socket id from each session that lists it. -/
def pairsSweep (st : ServerState) (sid : String) : List (String × PairSession) :=
  st.pairSessions.map (fun p =>
    (p.1, if sid ∈ p.2.users
          then { p.2 with users := eraseFirstP (fun u => u = sid) p.2.users }
          else p.2))

/-- Handler for the socket `disconnect` event: sweep the pair sessions,
then the study groups, then leave all socket.io rooms. -/
def disconnectSocket (st : ServerState) (sid : String) : ServerState × List Emit :=
  let pairEmits := st.pairSessions.filterMap (fun p =>
    if sid ∈ p.2.users then
      some { target := Target.toRoomExcept p.1 sid, event := "user-left",
             payload := EmitPayload.userLeft sid }
    else none)
  let st1 := { st with pairSessions := pairsSweep st sid }
  let (st2, groupEmits) :=
    (st1.studyGroups.map Prod.fst).foldl (discGroupStep sid) (st1, [])
  let st3 := { st2 with rooms := st2.rooms.map (fun p => (p.1, p.2.filter (fun m => ¬ m = sid))) }
  (st3, pairEmits ++ groupEmits)

/-- Unfolding of the state component of the disconnect handler. -/
theorem disconnectSocket_state_eq (st : ServerState) (sid : String) :
    (disconnectSocket st sid).1 =
      { ((st.studyGroups.map Prod.fst).foldl (discGroupStep sid)
          ({ st with pairSessions := pairsSweep st sid }, [])).1 with
        rooms := ((st.studyGroups.map Prod.fst).foldl (discGroupStep sid)
          ({ st with pairSessions := pairsSweep st sid }, [])).1.rooms.map
            (fun p => (p.1, p.2.filter (fun m => ¬ m = sid))) } := rfl

/-! ## Actions and reachable states

An `Action` is one invocation of a state-mutating operation of the
server; the environment inputs each operation reads (uuid, clock) are
carried in the action. `runActions` folds a trace from the initial empty
state, defining the reachable states. -/

inductive Action where
  | createGroup (name : Option String) (uuid8 : String) (now : Nat)
  | share (code language title : Option String) (uuid : String) (now : Nat)
  | joinPair (sid sessionId : String)
  | changeCode (sid sessionId code : String) (language : Option String)
  | joinGroup (sid groupId : String) (now : Nat)
  | changeGroupCode (sid groupId code : String) (language : Option String)
  | message (sid groupId text : String) (username : Option String) (uuid : String) (now : Nat)
  | question (sid groupId text : String) (username : Option String) (uuid : String) (now : Nat)
  | disconnect (sid : String)
deriving DecidableEq, Repr

def step (st : ServerState) : Action → ServerState
  | .createGroup name uuid8 now => (apiCreateGroup st name uuid8 now).1
  | .share code language title uuid now =>
    { st with sharedCodes := (apiShare st.sharedCodes code language title uuid now).1 }
  | .joinPair sid sessionId => (joinPairSession st sid sessionId).1
  | .changeCode sid sessionId code language => (codeChange st sid sessionId code language).1
  | .joinGroup sid groupId now => (joinStudyGroup st sid groupId now).1
  | .changeGroupCode sid groupId code language =>
    (groupCodeChange st sid groupId code language).1
  | .message sid groupId text username uuid now =>
    (sendMessage st sid groupId text username uuid now).1
  | .question sid groupId text username uuid now =>
    (addQuestion st sid groupId text username uuid now).1
  | .disconnect sid => (disconnectSocket st sid).1

def runActions (acts : List Action) : ServerState :=
  acts.foldl step initialState

/-! ## Supporting lemmas -/

theorem jsOr_some_ne {s : String} (d : String) (h : ¬ s = "") : jsOr (some s) d = s := by
  simp [jsOr, h]

theorem not_mem_removeFile_self (fs : List String) (p : String) :
    p ∉ removeFile fs p := by
  intro h
  have := List.of_mem_filter h
  simp at this

theorem not_mem_removeFile_of_not_mem {fs : List String} {p q : String}
    (h : q ∉ fs) : q ∉ removeFile fs p := by
  intro hm
  exact h (List.mem_of_mem_filter hm)

theorem digitChar_eq_star {m : Nat} (h : 16 ≤ m) : Nat.digitChar m = '*' := by
  unfold Nat.digitChar
  repeat rw [if_neg (by omega)]

theorem digitChar_ne_slash (m : Nat) : ¬ Nat.digitChar m = '/' := by
  by_cases h : m < 16
  · interval_cases m <;> decide
  · rw [digitChar_eq_star (by omega)]; decide

theorem toDigitsCore_mem (b : Nat) : ∀ (fuel n : Nat) (ds : List Char) (c : Char),
    c ∈ Nat.toDigitsCore b fuel n ds → c ∈ ds ∨ ∃ m, c = Nat.digitChar m := by
  intro fuel
  induction fuel with
  | zero => intro n ds c h; exact Or.inl h
  | succ fuel ih =>
    intro n ds c h
    simp only [Nat.toDigitsCore] at h
    by_cases hz : n / b = 0
    · rw [if_pos hz] at h
      rcases List.mem_cons.mp h with rfl | hds
      · exact Or.inr ⟨n % b, rfl⟩
      · exact Or.inl hds
    · rw [if_neg hz] at h
      rcases ih _ _ _ h with hds | hd
      · rcases List.mem_cons.mp hds with rfl | hds'
        · exact Or.inr ⟨n % b, rfl⟩
        · exact Or.inl hds'
      · exact Or.inr hd

theorem no_slash_repr (n : Nat) : '/' ∉ (Nat.repr n).data := by
  intro h
  have hdata : (Nat.repr n).data = Nat.toDigits 10 n := rfl
  rw [hdata] at h
  unfold Nat.toDigits at h
  rcases toDigitsCore_mem 10 _ _ _ _ h with hds | ⟨m, hm⟩
  · simp at hds
  · exact digitChar_ne_slash m hm.symm

theorem data_append_eq (a b : String) : (a ++ b).data = a.data ++ b.data := rfl

theorem dirname_pathJoin_temp (f : String) (hf : '/' ∉ f.data) :
    dirname (pathJoin "temp" f) = "temp" := by
  unfold dirname pathJoin
  have hdata : ("temp" ++ "/" ++ f).data = ('t' :: 'e' :: 'm' :: 'p' :: '/' :: []) ++ f.data := rfl
  rw [hdata]
  rw [List.reverse_append]
  have hdrop : (f.data.reverse ++ ('t' :: 'e' :: 'm' :: 'p' :: '/' :: []).reverse).dropWhile
      (fun c => ¬ c = '/') = '/' :: 'p' :: 'm' :: 'e' :: 't' :: [] := by
    have : ('t' :: 'e' :: 'm' :: 'p' :: '/' :: ([] : List Char)).reverse =
        '/' :: 'p' :: 'm' :: 'e' :: 't' :: [] := rfl
    rw [this]
    exact dropWhile_append_eq
      (fun c hc => by
        have : c ∈ f.data := List.mem_reverse.mp hc
        simp only [decide_eq_true_eq]
        intro hcc
        exact hf (hcc ▸ this))
      (fun c hc => by injection hc with hc; subst hc; decide)
  rw [hdrop]
  rfl

theorem extract_no_slash (code : String) : '/' ∉ (extractJavaClassName code).data := by
  unfold extractJavaClassName
  cases hs : searchPubClass code.data with
  | none => decide
  | some w =>
    intro hmem
    have hw : ∀ c ∈ w, jsWordChar c = true := searchPubClass_words hs
    have : jsWordChar '/' = true := hw _ (by simpa using hmem)
    simp [jsWordChar] at this

/-! ## Per-handler frame lemmas for `sharedCodes` -/

theorem joinPairSession_sharedCodes (st : ServerState) (sid sessionId : String) :
    (joinPairSession st sid sessionId).1.sharedCodes = st.sharedCodes := by
  simp only [joinPairSession]
  split <;> rfl

theorem codeChange_sharedCodes (st : ServerState) (sid sessionId code : String)
    (language : Option String) :
    (codeChange st sid sessionId code language).1.sharedCodes = st.sharedCodes := by
  simp only [codeChange]
  split <;> rfl

theorem joinStudyGroup_sharedCodes (st : ServerState) (sid groupId : String) (now : Nat) :
    (joinStudyGroup st sid groupId now).1.sharedCodes = st.sharedCodes := by
  simp only [joinStudyGroup, heapSet]
  split <;> rfl

theorem groupCodeChange_sharedCodes (st : ServerState) (sid groupId code : String)
    (language : Option String) :
    (groupCodeChange st sid groupId code language).1.sharedCodes = st.sharedCodes := by
  simp only [groupCodeChange, heapSet]
  split <;> rfl

theorem sendMessage_sharedCodes (st : ServerState) (sid groupId text : String)
    (username : Option String) (uuid : String) (now : Nat) :
    (sendMessage st sid groupId text username uuid now).1.sharedCodes = st.sharedCodes := by
  simp only [sendMessage, heapSet]
  split <;> rfl

theorem addQuestion_sharedCodes (st : ServerState) (sid groupId text : String)
    (username : Option String) (uuid : String) (now : Nat) :
    (addQuestion st sid groupId text username uuid now).1.sharedCodes = st.sharedCodes := by
  simp only [addQuestion, heapSet]
  split <;> rfl

theorem discGroupStep_sharedCodes (sid : String) (acc : ServerState × List Emit) (gid : String) :
    (discGroupStep sid acc gid).1.sharedCodes = acc.1.sharedCodes := by
  simp only [discGroupStep, heapSet]
  split
  · split
    · split <;> rfl
    · rfl
  · rfl

theorem discGroupFold_sharedCodes (sid : String) :
    ∀ (keys : List String) (acc : ServerState × List Emit),
    (keys.foldl (discGroupStep sid) acc).1.sharedCodes = acc.1.sharedCodes := by
  intro keys
  induction keys with
  | nil => intro acc; rfl
  | cons k ks ih =>
    intro acc
    rw [List.foldl_cons, ih]
    exact discGroupStep_sharedCodes sid acc k

theorem disconnect_sharedCodes (st : ServerState) (sid : String) :
    (disconnectSocket st sid).1.sharedCodes = st.sharedCodes := by
  simp only [disconnectSocket]
  rw [discGroupFold_sharedCodes]

/-! ## Share uuids of a trace -/

def shareUuids : List Action → List String
  | [] => []
  | .share _ _ _ uuid _ :: rest => uuid :: shareUuids rest
  | _ :: rest => shareUuids rest

theorem shareUuids_append (l1 l2 : List Action) :
    shareUuids (l1 ++ l2) = shareUuids l1 ++ shareUuids l2 := by
  induction l1 with
  | nil => rfl
  | cons a rest ih => cases a <;> simp [shareUuids, ih]

theorem step_sharedCodes_lookup (st : ServerState) (a : Action) (uuid : String)
    (h : uuid ∉ shareUuids [a]) :
    alookup (step st a).sharedCodes uuid = alookup st.sharedCodes uuid := by
  cases a with
  | createGroup name uuid8 now => rfl
  | share code language title uuid' now =>
    simp only [shareUuids, List.mem_cons] at h
    push_neg at h
    simp only [step, apiShare]
    exact alookup_aset_ne _ _ _ _ (fun hc => h.1 hc.symm)
  | joinPair sid sessionId =>
    simp only [step]; rw [joinPairSession_sharedCodes]
  | changeCode sid sessionId code language =>
    simp only [step]; rw [codeChange_sharedCodes]
  | joinGroup sid groupId now =>
    simp only [step]; rw [joinStudyGroup_sharedCodes]
  | changeGroupCode sid groupId code language =>
    simp only [step]; rw [groupCodeChange_sharedCodes]
  | message sid groupId text username uuid' now =>
    simp only [step]; rw [sendMessage_sharedCodes]
  | question sid groupId text username uuid' now =>
    simp only [step]; rw [addQuestion_sharedCodes]
  | disconnect sid =>
    simp only [step]; rw [disconnect_sharedCodes]

theorem foldl_sharedCodes_lookup (acts : List Action) :
    ∀ (st : ServerState) (uuid : String), uuid ∉ shareUuids acts →
    alookup (acts.foldl step st).sharedCodes uuid = alookup st.sharedCodes uuid := by
  induction acts with
  | nil => intro st uuid _; rfl
  | cons a rest ih =>
    intro st uuid h
    have h1 : uuid ∉ shareUuids [a] := by
      intro hm
      apply h
      cases a <;> simp [shareUuids] at hm ⊢ <;> simp [hm]
    have h2 : uuid ∉ shareUuids rest := by
      intro hm
      apply h
      cases a <;> simp [shareUuids, hm]
    rw [List.foldl_cons, ih _ _ h2, step_sharedCodes_lookup _ _ _ h1]

/-! ## Claim theorems: sharing -/

/-- C10: the share endpoint performs no validation: for every request,
including one with absent code or language, it stores a snippet with the
fields exactly as received (absent fields stored as missing, title
defaulting to Untitled) under the fresh uuid, and responds with that id
and the share URL. -/
theorem c10_share_no_validation (sharedCodes : List (String × SharedCode))
    (code language title : Option String) (uuid : String) (now : Nat) :
    (apiShare sharedCodes code language title uuid now).2 =
      { codeId := uuid, shareUrl := "/share/" ++ uuid } ∧
    alookup (apiShare sharedCodes code language title uuid now).1 uuid =
      some { code := code, language := language, title := jsOr title "Untitled",
             createdAt := now } ∧
    apiGetShare (apiShare sharedCodes none none none uuid now).1 uuid =
      .found 200 { code := none, language := none, title := "Untitled", createdAt := now } := by
  refine ⟨rfl, alookup_aset_self _ _ _, ?_⟩
  unfold apiGetShare apiShare
  rw [alookup_aset_self]
  rfl

/-- C9: retrieving a snippet by the id returned from a share yields
exactly the stored code, language and title (title defaulting to
Untitled), unchanged by any later operations of the process; retrieving
an id never returned by a share yields a 404 with a JSON error body. -/
theorem c9_share_roundtrip (acts : List Action) (hnodup : (shareUuids acts).Nodup)
    (code language title : Option String) (uuid : String) (now : Nat)
    (hmem : Action.share code language title uuid now ∈ acts) :
    apiGetShare (runActions acts).sharedCodes uuid =
      .found 200 { code := code, language := language, title := jsOr title "Untitled",
                   createdAt := now } ∧
    ∀ id, id ∉ shareUuids acts →
      apiGetShare (runActions acts).sharedCodes id = .notFound 404 "Shared code not found" := by
  constructor
  · obtain ⟨pre, post, hsplit⟩ := List.append_of_mem hmem
    subst hsplit
    have hpost : uuid ∉ shareUuids post := by
      rw [shareUuids_append] at hnodup
      have hsub : List.Sublist (shareUuids (Action.share code language title uuid now :: post))
          (shareUuids pre ++ shareUuids (Action.share code language title uuid now :: post)) :=
        List.sublist_append_right _ _
      have := hnodup.sublist hsub
      simp only [shareUuids] at this
      exact (List.nodup_cons.mp this).1
    unfold runActions apiGetShare
    rw [List.foldl_append, List.foldl_cons]
    rw [foldl_sharedCodes_lookup post _ uuid hpost]
    simp only [step, apiShare]
    rw [alookup_aset_self]
  · intro id hid
    unfold runActions apiGetShare
    rw [foldl_sharedCodes_lookup acts _ id hid]
    rfl

/-- Witness for C9 at a concrete trace. -/
theorem c9_share_roundtrip_witness :
    apiGetShare (runActions [Action.share (some "x") (some "javascript") none "u1" 7]).sharedCodes
        "u1" =
      .found 200 { code := some "x", language := some "javascript", title := "Untitled",
                   createdAt := 7 } ∧
    apiGetShare (runActions [Action.share (some "x") (some "javascript") none "u1" 7]).sharedCodes
        "zz" = .notFound 404 "Shared code not found" :=
  ⟨(c9_share_roundtrip [Action.share (some "x") (some "javascript") none "u1" 7]
      (by decide) (some "x") (some "javascript") none "u1" 7 (by decide)).1,
   (c9_share_roundtrip [Action.share (some "x") (some "javascript") none "u1" 7]
      (by decide) (some "x") (some "javascript") none "u1" 7 (by decide)).2 "zz" (by decide)⟩

/-! ## Claim theorems: realtime events -/

/-- C7: every realtime event other than join (code-change,
group-code-change, send-message, add-question) referencing a session or
group id absent from the corresponding registry is a silent no-op: the
state is unchanged and no event is emitted. -/
theorem c7_unknown_id_noop (st : ServerState) (sid sessionId groupId code text qtext : String)
    (language username : Option String) (uuid : String) (now : Nat)
    (hsess : alookup st.pairSessions sessionId = none)
    (hgrp : alookup st.studyGroups groupId = none) :
    codeChange st sid sessionId code language = (st, []) ∧
    groupCodeChange st sid groupId code language = (st, []) ∧
    sendMessage st sid groupId text username uuid now = (st, []) ∧
    addQuestion st sid groupId qtext username uuid now = (st, []) := by
  refine ⟨?_, ?_, ?_, ?_⟩
  · simp only [codeChange, hsess]
  · simp only [groupCodeChange, hgrp]
  · simp only [sendMessage, hgrp]
  · simp only [addQuestion, hgrp]

/-- Witness for C7 at a concrete populated state and unknown ids. -/
theorem c7_unknown_id_noop_witness :
    alookup (runActions [Action.joinPair "a" "k", Action.joinGroup "a" "g" 0]).pairSessions
      "nosession" = none ∧
    alookup (runActions [Action.joinPair "a" "k", Action.joinGroup "a" "g" 0]).studyGroups
      "nogroup" = none ∧
    (codeChange (runActions [Action.joinPair "a" "k", Action.joinGroup "a" "g" 0])
        "a" "nosession" "x" none =
      (runActions [Action.joinPair "a" "k", Action.joinGroup "a" "g" 0], []) ∧
    groupCodeChange (runActions [Action.joinPair "a" "k", Action.joinGroup "a" "g" 0])
        "a" "nogroup" "x" none =
      (runActions [Action.joinPair "a" "k", Action.joinGroup "a" "g" 0], []) ∧
    sendMessage (runActions [Action.joinPair "a" "k", Action.joinGroup "a" "g" 0])
        "a" "nogroup" "m" none "u" 1 =
      (runActions [Action.joinPair "a" "k", Action.joinGroup "a" "g" 0], []) ∧
    addQuestion (runActions [Action.joinPair "a" "k", Action.joinGroup "a" "g" 0])
        "a" "nogroup" "q" none "u" 1 =
      (runActions [Action.joinPair "a" "k", Action.joinGroup "a" "g" 0], [])) :=
  ⟨by decide, by decide,
   c7_unknown_id_noop _ "a" "nosession" "nogroup" "x" "m" "q" none none "u" 1
     (by decide) (by decide)⟩

/-- Joining an existing pair session attaches the member and reports the
existing document unchanged. -/
theorem joinPairSession_existing (st : ServerState) (sid sessionId : String)
    (s : PairSession) (h : alookup st.pairSessions sessionId = some s) :
    joinPairSession st sid sessionId =
      ({ st with rooms := addToRoom st.rooms sessionId sid,
                 pairSessions := aset st.pairSessions sessionId
                   { code := s.code, language := s.language, users := s.users ++ [sid] } },
       [{ target := .toSocket sid, event := "session-state",
          payload := .sessionState s.code s.language },
        { target := .toRoomExcept sessionId sid, event := "user-joined",
          payload := .userJoined sid }]) := by
  have hcont : acontains st.pairSessions sessionId = true := by
    simp [acontains, h]
  simp only [joinPairSession, hcont, if_true, h]

/-- Joining a fresh pair session id creates it with the default document. -/
theorem joinPairSession_fresh (st : ServerState) (sid sessionId : String)
    (h : alookup st.pairSessions sessionId = none) :
    joinPairSession st sid sessionId =
      ({ st with rooms := addToRoom st.rooms sessionId sid,
                 pairSessions := aset
                   (aset st.pairSessions sessionId
                     { code := pairWelcome, language := "javascript", users := [] })
                   sessionId
                   { code := pairWelcome, language := "javascript", users := [sid] } },
       [{ target := .toSocket sid, event := "session-state",
          payload := .sessionState pairWelcome "javascript" },
        { target := .toRoomExcept sessionId sid, event := "user-joined",
          payload := .userJoined sid }]) := by
  have hcont : acontains st.pairSessions sessionId = false := by
    simp [acontains, h]
  have hset := alookup_aset_self st.pairSessions sessionId
    { code := pairWelcome, language := "javascript", users := [] }
  simp only [joinPairSession, hcont, Bool.false_eq_true, if_false, hset]
  rfl

/-- C5: joining a fresh pair session id creates it with the default
welcome document and reports that document; joining an existing id
returns the existing document unchanged and only appends the member; a
connection joining after a code-change observes the latest written code
and language, not the default. -/
theorem c5_pair_join_document (stA stB : ServerState)
    (sid1 sid2 sid3 sessionId newCode lang : String) (s : PairSession)
    (hfresh : alookup stA.pairSessions sessionId = none)
    (hexist : alookup stB.pairSessions sessionId = some s)
    (hlang : ¬ lang = "") :
    (joinPairSession stA sid1 sessionId).2 =
      [{ target := .toSocket sid1, event := "session-state",
         payload := .sessionState pairWelcome "javascript" },
       { target := .toRoomExcept sessionId sid1, event := "user-joined",
         payload := .userJoined sid1 }] ∧
    alookup (joinPairSession stA sid1 sessionId).1.pairSessions sessionId =
      some { code := pairWelcome, language := "javascript", users := [sid1] } ∧
    (joinPairSession stB sid2 sessionId).2 =
      [{ target := .toSocket sid2, event := "session-state",
         payload := .sessionState s.code s.language },
       { target := .toRoomExcept sessionId sid2, event := "user-joined",
         payload := .userJoined sid2 }] ∧
    alookup (joinPairSession stB sid2 sessionId).1.pairSessions sessionId =
      some { code := s.code, language := s.language, users := s.users ++ [sid2] } ∧
    (joinPairSession ((codeChange ((joinPairSession stA sid1 sessionId).1)
        sid1 sessionId newCode (some lang)).1) sid3 sessionId).2 =
      [{ target := .toSocket sid3, event := "session-state",
         payload := .sessionState newCode lang },
       { target := .toRoomExcept sessionId sid3, event := "user-joined",
         payload := .userJoined sid3 }] := by
  have hlookup1 : alookup (joinPairSession stA sid1 sessionId).1.pairSessions sessionId =
      some { code := pairWelcome, language := "javascript", users := [sid1] } := by
    rw [joinPairSession_fresh stA sid1 sessionId hfresh]
    exact alookup_aset_self _ _ _
  refine ⟨by rw [joinPairSession_fresh stA sid1 sessionId hfresh],
    hlookup1,
    by rw [joinPairSession_existing stB sid2 sessionId s hexist],
    by rw [joinPairSession_existing stB sid2 sessionId s hexist]; exact alookup_aset_self _ _ _,
    ?_⟩
  have hchange : (codeChange ((joinPairSession stA sid1 sessionId).1)
      sid1 sessionId newCode (some lang)).1.pairSessions =
      aset (joinPairSession stA sid1 sessionId).1.pairSessions sessionId
        { code := newCode, language := lang, users := [sid1] } := by
    simp only [codeChange, hlookup1]
    simp [jsFalsy, hlang]
  have hlookup2 : alookup (codeChange ((joinPairSession stA sid1 sessionId).1)
      sid1 sessionId newCode (some lang)).1.pairSessions sessionId =
      some { code := newCode, language := lang, users := [sid1] } := by
    rw [hchange]
    exact alookup_aset_self _ _ _
  rw [joinPairSession_existing _ sid3 sessionId _ hlookup2]

/-- Witness for C5 at concrete states. -/
theorem c5_pair_join_document_witness :
    alookup initialState.pairSessions "k" = none ∧
    alookup (runActions [Action.joinPair "a" "k"]).pairSessions "k" =
      some { code := pairWelcome, language := "javascript", users := ["a"] } ∧
    (joinPairSession ((codeChange ((joinPairSession initialState "a" "k").1)
        "a" "k" "let x = 1" (some "python")).1) "c" "k").2 =
      [{ target := .toSocket "c", event := "session-state",
         payload := .sessionState "let x = 1" "python" },
       { target := .toRoomExcept "k" "c", event := "user-joined",
         payload := .userJoined "c" }] :=
  ⟨rfl, by decide,
   (c5_pair_join_document initialState (runActions [Action.joinPair "a" "k"])
      "a" "b" "c" "k" "let x = 1" "python"
      { code := pairWelcome, language := "javascript", users := ["a"] }
      rfl (by decide) (by decide)).2.2.2.2⟩

/-- C6: a chat message or question submitted to an existing study group
is emitted once with the whole room as target (sender included), while a
document edit — a pair-session code-change or a study-group
group-code-change — is emitted once with the room minus the originating
connection as target. -/
theorem c6_broadcast_semantics (st : ServerState) (connected : List String)
    (sid groupId sessionId text qtext newCode : String)
    (username language : Option String) (uuid : String) (now : Nat) (r : Nat)
    (s : PairSession)
    (hgrp : alookup st.studyGroups groupId = some r)
    (hsess : alookup st.pairSessions sessionId = some s) :
    (sendMessage st sid groupId text username uuid now).2 =
      [{ target := .toRoomAll groupId, event := "new-message",
         payload := .newMessage
           { id := uuid, text := text, username := jsOr username "Anonymous",
             timestamp := now } }] ∧
    (addQuestion st sid groupId qtext username uuid now).2 =
      [{ target := .toRoomAll groupId, event := "new-question",
         payload := .newQuestion
           { id := uuid, text := qtext, username := jsOr username "Anonymous",
             timestamp := now } }] ∧
    (groupCodeChange st sid groupId newCode language).2 =
      [{ target := .toRoomExcept groupId sid, event := "group-code-update",
         payload := .groupCodeUpdate newCode language }] ∧
    (codeChange st sid sessionId newCode language).2 =
      [{ target := .toRoomExcept sessionId sid, event := "code-update",
         payload := .codeUpdate newCode language }] ∧
    recipients st connected (Target.toRoomAll groupId) = roomMembers st groupId ∧
    (∀ member ∈ roomMembers st groupId,
        member ∈ recipients st connected (Target.toRoomAll groupId)) ∧
    sid ∉ recipients st connected (Target.toRoomExcept groupId sid) ∧
    (∀ member ∈ roomMembers st groupId, ¬ member = sid →
        member ∈ recipients st connected (Target.toRoomExcept groupId sid)) ∧
    sid ∉ recipients st connected (Target.toRoomExcept sessionId sid) ∧
    (∀ member ∈ roomMembers st sessionId, ¬ member = sid →
        member ∈ recipients st connected (Target.toRoomExcept sessionId sid)) := by
  refine ⟨?_, ?_, ?_, ?_, rfl, ?_, ?_, ?_, ?_, ?_⟩
  · simp only [sendMessage, hgrp]
  · simp only [addQuestion, hgrp]
  · simp only [groupCodeChange, hgrp]
  · simp only [codeChange, hsess]
  · intro member hm
    simpa [recipients] using hm
  · intro hm
    rcases List.mem_filter.mp hm with ⟨-, hpred⟩
    simp at hpred
  · intro member hm hne
    simp only [recipients, List.mem_filter, decide_eq_true_eq]
    exact ⟨hm, hne⟩
  · intro hm
    rcases List.mem_filter.mp hm with ⟨-, hpred⟩
    simp at hpred
  · intro member hm hne
    simp only [recipients, List.mem_filter, decide_eq_true_eq]
    exact ⟨hm, hne⟩

/-- Witness for C6 at a concrete state with a two-member group and a
pair session. -/
theorem c6_broadcast_semantics_witness :
    (sendMessage (runActions [Action.joinPair "a" "k", Action.joinGroup "a" "g" 0,
        Action.joinGroup "b" "g" 1]) "a" "g" "hi" none "u1" 3).2 =
      [{ target := .toRoomAll "g", event := "new-message",
         payload := .newMessage
           { id := "u1", text := "hi", username := "Anonymous",
             timestamp := 3 } }] ∧
    (codeChange (runActions [Action.joinPair "a" "k", Action.joinGroup "a" "g" 0,
        Action.joinGroup "b" "g" 1]) "a" "k" "let x = 1" none).2 =
      [{ target := .toRoomExcept "k" "a", event := "code-update",
         payload := .codeUpdate "let x = 1" none }] ∧
    "a" ∉ recipients (runActions [Action.joinPair "a" "k", Action.joinGroup "a" "g" 0,
        Action.joinGroup "b" "g" 1]) ["a", "b"] (Target.toRoomExcept "g" "a") ∧
    "a" ∈ recipients (runActions [Action.joinPair "a" "k", Action.joinGroup "a" "g" 0,
        Action.joinGroup "b" "g" 1]) ["a", "b"] (Target.toRoomAll "g") ∧
    "b" ∈ recipients (runActions [Action.joinPair "a" "k", Action.joinGroup "a" "g" 0,
        Action.joinGroup "b" "g" 1]) ["a", "b"] (Target.toRoomExcept "g" "a") ∧
    "a" ∉ recipients (runActions [Action.joinPair "a" "k", Action.joinGroup "a" "g" 0,
        Action.joinGroup "b" "g" 1]) ["a", "b"] (Target.toRoomExcept "k" "a") :=
  ⟨(c6_broadcast_semantics _ ["a", "b"] "a" "g" "k" "hi" "q" "let x = 1" none none "u1" 3 0
      { code := pairWelcome, language := "javascript", users := ["a"] }
      (by decide) (by decide)).1,
   (c6_broadcast_semantics _ ["a", "b"] "a" "g" "k" "hi" "q" "let x = 1" none none "u1" 3 0
      { code := pairWelcome, language := "javascript", users := ["a"] }
      (by decide) (by decide)).2.2.2.1,
   (c6_broadcast_semantics _ ["a", "b"] "a" "g" "k" "hi" "q" "let x = 1" none none "u1" 3 0
      { code := pairWelcome, language := "javascript", users := ["a"] }
      (by decide) (by decide)).2.2.2.2.2.2.1,
   (c6_broadcast_semantics _ ["a", "b"] "a" "g" "k" "hi" "q" "let x = 1" none none "u1" 3 0
      { code := pairWelcome, language := "javascript", users := ["a"] }
      (by decide) (by decide)).2.2.2.2.2.1 "a" (by decide),
   (c6_broadcast_semantics _ ["a", "b"] "a" "g" "k" "hi" "q" "let x = 1" none none "u1" 3 0
      { code := pairWelcome, language := "javascript", users := ["a"] }
      (by decide) (by decide)).2.2.2.2.2.2.2.1 "b" (by decide) (by decide),
   (c6_broadcast_semantics _ ["a", "b"] "a" "g" "k" "hi" "q" "let x = 1" none none "u1" 3 0
      { code := pairWelcome, language := "javascript", users := ["a"] }
      (by decide) (by decide)).2.2.2.2.2.2.2.2.1⟩

/-! ## Claim theorems: execution service -/

theorem no_slash_tempName (now : Nat) (ext : String) (hext : '/' ∉ ext.data) :
    '/' ∉ ("temp_" ++ toString now ++ ext).data := by
  intro h
  rw [data_append_eq, data_append_eq] at h
  rcases List.mem_append.mp h with h1 | h2
  · rcases List.mem_append.mp h1 with ha | hb
    · simp at ha
    · exact no_slash_repr now hb
  · exact hext h2

/-- For a supported language and non-empty code the response body is
always the one built by the exec callback, for any cleanup outcome. -/
theorem apiRun_snd (fs : List String) (code language : String) (now : Nat)
    (win32 : Bool) (o : ExecOutcome) (unlinkOk : String → Bool)
    (hcode : ¬ code = "") (hlang : supportedLanguage language = true) :
    (apiRun fs (some code) (some language) now win32 o unlinkOk).2 =
      .completed (runCallback o) := by
  simp only [supportedLanguage, Bool.or_eq_true, decide_eq_true_eq] at hlang
  rcases hlang with ((h | h) | h) | h <;> subst h <;>
    simp [apiRun, jsFalsy, hcode, commandFor]

/-- C1 counterexample: a run whose process exits 0 while emitting
standard-error text is reported as success with the standard output,
contradicting the claim that any emitted standard-error text yields a
failure result. -/
theorem c1_counterexample :
    (apiRun [] (some "print(1)") (some "python") 0 false
        { exitCode := 0, killed := false, errorMessage := "", stdout := "1\n",
          stderr := "SyntaxWarning: invalid escape sequence", producesArtifact := false }
        (fun _ => true)).2 =
      .completed { success := true, output := "1\n", error := false } := by
  rfl

/-- C1 (amended): the result is a failure exactly when the exec callback
receives an error (nonzero exit code or kill/timeout); in that case the
output is the standard-error text when non-empty and otherwise the error
message, never falling back to standard output; a zero exit with no kill
is reported as success even when standard-error text was emitted, with
output = stdout when non-empty, else a placeholder. -/
theorem c1_exec_failure_semantics (fs : List String) (code language : String)
    (now : Nat) (win32 : Bool) (o : ExecOutcome) (unlinkOk : String → Bool)
    (hcode : ¬ code = "") (hlang : supportedLanguage language = true) :
    (apiRun fs (some code) (some language) now win32 o unlinkOk).2 =
      .completed (runCallback o) ∧
    (execErrored o = true → runCallback o =
      { success := false,
        output := if o.stderr = "" then o.errorMessage else o.stderr, error := true }) ∧
    (execErrored o = false → runCallback o =
      { success := true,
        output := if o.stdout = "" then "Program executed successfully (no output)"
                  else o.stdout, error := false }) ∧
    (o.exitCode = 0 → o.killed = false → (runCallback o).success = true) := by
  refine ⟨apiRun_snd fs code language now win32 o unlinkOk hcode hlang, ?_, ?_, ?_⟩
  · intro h
    simp [runCallback, h]
  · intro h
    simp [runCallback, h]
  · intro h1 h2
    simp [runCallback, execErrored, h1, h2]

/-- Witness for C1 (amended) at a concrete failing compile. -/
theorem c1_exec_failure_semantics_witness :
    (apiRun [] (some "int main(){return 0;}") (some "cpp") 5 false
        { exitCode := 1, killed := false, errorMessage := "Command failed",
          stdout := "", stderr := "error: x", producesArtifact := false }
        (fun _ => true)).2 =
      .completed (runCallback
        { exitCode := 1, killed := false, errorMessage := "Command failed",
          stdout := "", stderr := "error: x", producesArtifact := false }) ∧
    runCallback
        { exitCode := 1, killed := false, errorMessage := "Command failed",
          stdout := "", stderr := "error: x", producesArtifact := false } =
      { success := false, output := "error: x", error := true } :=
  ⟨(c1_exec_failure_semantics [] "int main(){return 0;}" "cpp" 5 false
      { exitCode := 1, killed := false, errorMessage := "Command failed",
        stdout := "", stderr := "error: x", producesArtifact := false }
      (fun _ => true) (by decide) (by decide)).1,
   (c1_exec_failure_semantics [] "int main(){return 0;}" "cpp" 5 false
      { exitCode := 1, killed := false, errorMessage := "Command failed",
        stdout := "", stderr := "error: x", producesArtifact := false }
      (fun _ => true) (by decide) (by decide)).2.1 rfl⟩

/-- C2 counterexample: an execute request with an unsupported language
writes the temp source file before the command lookup and returns the
400 response without deleting it, so the workspace source file still
exists on that exit path. -/
theorem c2_counterexample :
    (apiRun [] (some "x") (some "ruby") 0 false
        { exitCode := 0, killed := false, errorMessage := "", stdout := "",
          stderr := "", producesArtifact := false } (fun _ => true)) =
      (["temp/temp_0.txt"], .badRequest "Unsupported language") ∧
    (createTempFile [] "x" "ruby" 0).1.filePath = "temp/temp_0.txt" := by
  exact ⟨rfl, rfl⟩

/-- C2 (amended): for a supported language (with removal succeeding, and
excluding the Windows cpp case whose binary is named output.exe while the
cleanup checks output), after the run completes through the exec callback
the workspace source file and the toolchain artifact are gone from the
filesystem, and the response never depends on the cleanup outcomes. -/
theorem c2_cleanup (fs : List String) (code language : String) (now : Nat)
    (win32 : Bool) (o : ExecOutcome) (unlinkOk unlinkOk2 : String → Bool)
    (hcode : ¬ code = "") (hlang : supportedLanguage language = true)
    (hok : ∀ p, unlinkOk p = true) (hwin : ¬ (win32 = true ∧ language = "cpp")) :
    (createTempFile fs code language now).1.filePath ∉
      (apiRun fs (some code) (some language) now win32 o unlinkOk).1 ∧
    (∀ a, artifactPath language (createTempFile fs code language now).1 win32 = some a →
      a ∉ (apiRun fs (some code) (some language) now win32 o unlinkOk).1) ∧
    (apiRun fs (some code) (some language) now win32 o unlinkOk).2 =
      (apiRun fs (some code) (some language) now win32 o unlinkOk2).2 := by
  have hsnd := apiRun_snd fs code language now win32 o unlinkOk hcode hlang
  have hsnd2 := apiRun_snd fs code language now win32 o unlinkOk2 hcode hlang
  have hdirJava : dirname (pathJoin "temp"
      (jsOr (some (extractJavaClassName code)) "Main" ++ ".java")) = "temp" := by
    rw [jsOr_some_ne "Main" (extractJavaClassName_ne_empty code)]
    apply dirname_pathJoin_temp
    intro hs
    rw [data_append_eq] at hs
    rcases List.mem_append.mp hs with h1 | h2
    · exact extract_no_slash code h1
    · simp at h2
  have hdirCpp : dirname (pathJoin "temp" ("temp_" ++ toString now ++ ".cpp")) = "temp" :=
    dirname_pathJoin_temp _ (no_slash_tempName now ".cpp" (by decide))
  refine ⟨?_, ?_, hsnd.trans hsnd2.symm⟩
  all_goals simp only [supportedLanguage, Bool.or_eq_true, decide_eq_true_eq] at hlang
  all_goals rcases hlang with ((h | h) | h) | h <;> subst h
  · -- source file removed: python
    simp only [apiRun, jsFalsy, hcode, decide_False, decide_True, Option.getD_some,
      String.reduceEq, decide_eq_false_iff_not, not_false_eq_true, Bool.false_or, Bool.or_false,
      reduceIte, createTempFile, commandFor, artifactPath, Bool.false_eq_true, if_false,
      hok, if_true]
    exact not_mem_removeFile_self _ _
  · -- source file removed: javascript
    simp only [apiRun, jsFalsy, hcode, decide_False, decide_True, Option.getD_some,
      String.reduceEq, decide_eq_false_iff_not, not_false_eq_true, Bool.false_or, Bool.or_false,
      reduceIte, createTempFile, commandFor, artifactPath, Bool.false_eq_true, if_false,
      hok, if_true]
    exact not_mem_removeFile_self _ _
  · -- source file removed: java
    simp only [apiRun, jsFalsy, hcode, decide_False, decide_True, Option.getD_some,
      String.reduceEq, decide_eq_false_iff_not, not_false_eq_true, Bool.false_or, Bool.or_false,
      reduceIte, createTempFile, commandFor, artifactPath, Bool.false_eq_true, if_false,
      hok, if_true, hdirJava]
    split <;> split <;>
      first
        | exact not_mem_removeFile_of_not_mem (not_mem_removeFile_self _ _)
        | exact not_mem_removeFile_self _ _
  · -- source file removed: cpp
    have hw : win32 = false := by
      cases hw32 : win32
      · rfl
      · exact absurd ⟨rfl, rfl⟩ (hw32 ▸ hwin)
    subst hw
    simp only [apiRun, jsFalsy, hcode, decide_False, decide_True, Option.getD_some,
      String.reduceEq, decide_eq_false_iff_not, not_false_eq_true, Bool.false_or, Bool.or_false,
      reduceIte, createTempFile, commandFor, artifactPath, Bool.false_eq_true, if_false,
      hok, if_true, hdirCpp]
    split <;> split <;>
      first
        | exact not_mem_removeFile_of_not_mem (not_mem_removeFile_self _ _)
        | exact not_mem_removeFile_self _ _
  · -- artifact: python has none
    intro a ha
    simp [artifactPath] at ha
  · -- artifact: javascript has none
    intro a ha
    simp [artifactPath] at ha
  · -- artifact removed: java
    intro a ha
    simp only [artifactPath, String.reduceEq, reduceIte, createTempFile, Option.getD_some,
      Option.some.injEq] at ha
    subst ha
    simp only [apiRun, jsFalsy, hcode, decide_False, decide_True, Option.getD_some,
      String.reduceEq, decide_eq_false_iff_not, not_false_eq_true, Bool.false_or, Bool.or_false,
      reduceIte, createTempFile, commandFor, artifactPath, Bool.false_eq_true, if_false,
      hok, if_true, hdirJava]
    split <;> split <;>
      first
        | exact not_mem_removeFile_self _ _
        | assumption
  · -- artifact removed: cpp
    intro a ha
    have hw : win32 = false := by
      cases hw32 : win32
      · rfl
      · exact absurd ⟨rfl, rfl⟩ (hw32 ▸ hwin)
    subst hw
    simp only [artifactPath, String.reduceEq, reduceIte, Bool.false_eq_true, if_false,
      Option.some.injEq] at ha
    subst ha
    simp only [apiRun, jsFalsy, hcode, decide_False, decide_True, Option.getD_some,
      String.reduceEq, decide_eq_false_iff_not, not_false_eq_true, Bool.false_or, Bool.or_false,
      reduceIte, createTempFile, commandFor, artifactPath, Bool.false_eq_true, if_false,
      hok, if_true, hdirCpp]
    split <;> split <;>
      first
        | exact not_mem_removeFile_self _ _
        | assumption

/-- Witness for C2 (amended) at a concrete cpp run producing an artifact. -/
theorem c2_cleanup_witness :
    (createTempFile [] "int main(){}" "cpp" 0).1.filePath ∉
      (apiRun [] (some "int main(){}") (some "cpp") 0 false
        { exitCode := 0, killed := false, errorMessage := "", stdout := "ok",
          stderr := "", producesArtifact := true } (fun _ => true)).1 ∧
    ("temp/output" : String) ∉
      (apiRun [] (some "int main(){}") (some "cpp") 0 false
        { exitCode := 0, killed := false, errorMessage := "", stdout := "ok",
          stderr := "", producesArtifact := true } (fun _ => true)).1 :=
  ⟨(c2_cleanup [] "int main(){}" "cpp" 0 false
      { exitCode := 0, killed := false, errorMessage := "", stdout := "ok",
        stderr := "", producesArtifact := true } (fun _ => true) (fun _ => true)
      (by decide) (by decide) (fun p => rfl) (by decide)).1,
   (c2_cleanup [] "int main(){}" "cpp" 0 false
      { exitCode := 0, killed := false, errorMessage := "", stdout := "ok",
        stderr := "", producesArtifact := true } (fun _ => true) (fun _ => true)
      (by decide) (by decide) (fun p => rfl) (by decide)).2.1 "temp/output" rfl⟩

/-! ## Claim theorem: Java file naming -/

/-- C8: for every Java execute request, the temp source file is named
after the identifier of the first `public class` declaration found in
the submitted code (the fixed fallback `Main` when no such declaration
exists), and the toolchain command references exactly that class name. -/
theorem c8_java_class_name (fs : List String) (code : String) (now : Nat) (win32 : Bool) :
    ∃ C : String,
      (createTempFile fs code "java" now).1.className = some C ∧
      (createTempFile fs code "java" now).1.fileName = C ++ ".java" ∧
      (createTempFile fs code "java" now).1.filePath = pathJoin "temp" (C ++ ".java") ∧
      commandFor "java" (createTempFile fs code "java" now).1 win32 =
        some ("cd \"" ++ dirname (pathJoin "temp" (C ++ ".java")) ++ "\" && javac \"" ++
              (C ++ ".java") ++ "\" && java " ++ C) ∧
      ((∃ i w, PubClassAt (code.data.drop i) w ∧
          (∀ j, j < i → ∀ n, ¬ PubClassAt (code.data.drop j) n) ∧ C = String.mk w) ∨
       ((∀ i n, ¬ PubClassAt (code.data.drop i) n) ∧ C = "Main")) := by
  have hC : jsOr (some (extractJavaClassName code)) "Main" = extractJavaClassName code :=
    jsOr_some_ne "Main" (extractJavaClassName_ne_empty code)
  refine ⟨extractJavaClassName code, ?_, ?_, ?_, ?_, ?_⟩
  · simp [createTempFile, hC]
  · simp [createTempFile, hC]
  · simp [createTempFile, hC]
  · simp [commandFor, createTempFile, hC]
  · unfold extractJavaClassName
    cases hs : searchPubClass code.data with
    | some w =>
      left
      obtain ⟨i, hdecl, hmin⟩ := searchPubClass_some_decl hs
      exact ⟨i, w, hdecl, hmin, rfl⟩
    | none =>
      right
      exact ⟨searchPubClass_none_decl hs, rfl⟩

/-! ## Heap and map case lemmas for the registry invariants -/

theorem getD_set_ne {α : Type} (l : List α) (i j : Nat) (a d : α) (h : ¬ i = j) :
    (l.set i a).getD j d = l.getD j d := by
  simp only [List.getD_eq_getElem?_getD]
  rw [List.getElem?_set_ne h]

theorem getD_set_self {α : Type} (l : List α) (i : Nat) (a d : α) (h : i < l.length) :
    (l.set i a).getD i d = a := by
  simp only [List.getD_eq_getElem?_getD]
  rw [List.getElem?_set_self h]
  rfl

theorem getD_of_length_le {α : Type} (l : List α) (i : Nat) (d : α) (h : l.length ≤ i) :
    l.getD i d = d := by
  simp only [List.getD_eq_getElem?_getD]
  rw [List.getElem?_eq_none h]
  rfl

theorem alookup_aset_cases {α : Type} {m : List (String × α)} {k k' : String} {v w : α}
    (h : alookup (aset m k v) k' = some w) :
    (k = k' ∧ v = w) ∨ (¬ k = k' ∧ alookup m k' = some w) := by
  by_cases hk : k = k'
  · subst hk
    rw [alookup_aset_self] at h
    exact Or.inl ⟨rfl, Option.some.inj h⟩
  · rw [alookup_aset_ne _ _ _ _ hk] at h
    exact Or.inr ⟨hk, h⟩

theorem alookup_aerase_cases {α : Type} {m : List (String × α)} {k k' : String} {w : α}
    (h : alookup (aerase m k) k' = some w) :
    ¬ k = k' ∧ alookup m k' = some w := by
  by_cases hk : k = k'
  · subst hk
    rw [alookup_aerase_self] at h
    exact Option.noConfusion h
  · rw [alookup_aerase_ne _ _ _ hk] at h
    exact ⟨hk, h⟩

theorem alookup_aerase_none {α : Type} {m : List (String × α)} {k' : String}
    (k : String) (h : alookup m k' = none) : alookup (aerase m k) k' = none := by
  by_cases hk : k = k'
  · subst hk; exact alookup_aerase_self _ _
  · rw [alookup_aerase_ne _ _ _ hk]; exact h

theorem mem_aerase {α : Type} {m : List (String × α)} {k : String} {p : String × α}
    (h : p ∈ aerase m k) : p ∈ m ∧ ¬ p.1 = k := by
  have := List.mem_filter.mp h
  simpa using this

theorem aerase_map_fst_nodup {α : Type} {m : List (String × α)} (k : String)
    (h : (m.map Prod.fst).Nodup) : ((aerase m k).map Prod.fst).Nodup :=
  h.sublist (List.Sublist.map Prod.fst (List.filter_sublist m))

theorem alookup_of_mem_nodup {α : Type} {m : List (String × α)} {k : String} {v : α}
    (hnd : (m.map Prod.fst).Nodup) (hm : (k, v) ∈ m) : alookup m k = some v := by
  induction m with
  | nil => simp at hm
  | cons p rest ih =>
    rcases List.mem_cons.mp hm with heq | hmem
    · rw [← heq]
      simp [alookup]
    · have hp : ¬ p.1 = k := by
        intro hk
        have : k ∈ rest.map Prod.fst := List.mem_map.mpr ⟨(k, v), hmem, rfl⟩
        rw [List.map_cons] at hnd
        exact (List.nodup_cons.mp hnd).1 (hk ▸ this)
      simp only [alookup, if_neg hp]
      exact ih ((List.nodup_cons.mp (by rwa [List.map_cons] at hnd)).2) hmem

/-! ## First occurrence removal -/

theorem eraseFirstP_sub {α : Type} (p : α → Bool) : ∀ (l : List α) (x : α),
    x ∈ eraseFirstP p l → x ∈ l := by
  intro l
  induction l with
  | nil => intro x h; simp [eraseFirstP] at h
  | cons a rest ih =>
    intro x h
    simp only [eraseFirstP] at h
    by_cases ha : p a
    · rw [if_pos ha] at h
      exact List.mem_cons_of_mem _ h
    · rw [if_neg ha] at h
      rcases List.mem_cons.mp h with rfl | hm
      · exact List.mem_cons_self _ _
      · exact List.mem_cons_of_mem _ (ih x hm)

theorem countP_eraseFirstP {α : Type} (p : α → Bool) : ∀ (l : List α),
    (∃ x ∈ l, p x = true) →
    List.countP p (eraseFirstP p l) + 1 = List.countP p l := by
  intro l
  induction l with
  | nil => rintro ⟨x, hx, -⟩; simp at hx
  | cons a rest ih =>
    rintro ⟨x, hx, hpx⟩
    simp only [eraseFirstP]
    by_cases ha : p a
    · rw [if_pos ha, List.countP_cons_of_pos _ _ ha]
    · rw [if_neg ha, List.countP_cons_of_neg _ _ ha, List.countP_cons_of_neg _ _ ha]
      apply ih
      rcases List.mem_cons.mp hx with rfl | hm
      · exact absurd hpx (by simpa using ha)
      · exact ⟨x, hm, hpx⟩

theorem eraseFirstP_of_none {α : Type} (p : α → Bool) : ∀ (l : List α),
    (∀ x ∈ l, ¬ p x = true) → eraseFirstP p l = l := by
  intro l
  induction l with
  | nil => intro _; rfl
  | cons a rest ih =>
    intro h
    simp only [eraseFirstP, if_neg (h a (List.mem_cons_self _ _))]
    rw [ih (fun x hx => h x (List.mem_cons_of_mem _ hx))]

/-! ## The registry invariant (C3)

`GoodState` is the inductive invariant: the live registry and global
directory are identical maps of heap references, every stored reference
is allocated, and distinct ids never share a group object. -/

def RefsBound (st : ServerState) : Prop :=
  ∀ gid r, alookup st.globalStudyGroups gid = some r → r < st.groupHeap.length

def RefInj (st : ServerState) : Prop :=
  ∀ g1 g2 r, alookup st.globalStudyGroups g1 = some r →
    alookup st.globalStudyGroups g2 = some r → g1 = g2

def GoodState (st : ServerState) : Prop :=
  st.studyGroups = st.globalStudyGroups ∧ RefsBound st ∧ RefInj st

theorem goodState_frame {st st' : ServerState}
    (h1 : st'.studyGroups = st.studyGroups)
    (h2 : st'.globalStudyGroups = st.globalStudyGroups)
    (h3 : st'.groupHeap.length = st.groupHeap.length)
    (hg : GoodState st) : GoodState st' := by
  obtain ⟨he, hb, hi⟩ := hg
  refine ⟨by rw [h1, h2, he], ?_, ?_⟩
  · intro gid r hr
    rw [h2] at hr
    rw [h3]
    exact hb gid r hr
  · intro g1 g2 r hr1 hr2
    rw [h2] at hr1 hr2
    exact hi g1 g2 r hr1 hr2

theorem goodState_create {st st' : ServerState} (gid : String) (g : Group)
    (h1 : st'.studyGroups = aset st.studyGroups gid st.groupHeap.length)
    (h2 : st'.globalStudyGroups = aset st.globalStudyGroups gid st.groupHeap.length)
    (h3 : st'.groupHeap = st.groupHeap ++ [g])
    (hg : GoodState st) : GoodState st' := by
  obtain ⟨he, hb, hi⟩ := hg
  refine ⟨by rw [h1, h2, he], ?_, ?_⟩
  · intro k r hr
    rw [h2] at hr
    rw [h3, List.length_append, List.length_cons, List.length_nil]
    rcases alookup_aset_cases hr with ⟨-, hv⟩ | ⟨-, hold⟩
    · omega
    · have := hb k r hold
      omega
  · intro k1 k2 r hr1 hr2
    rw [h2] at hr1 hr2
    rcases alookup_aset_cases hr1 with ⟨hk1, hv1⟩ | ⟨hk1, hold1⟩ <;>
      rcases alookup_aset_cases hr2 with ⟨hk2, hv2⟩ | ⟨hk2, hold2⟩
    · rw [← hk1, ← hk2]
    · exfalso
      have := hb k2 r hold2
      omega
    · exfalso
      have := hb k1 r hold1
      omega
    · exact hi k1 k2 r hold1 hold2

theorem goodState_erase_both {st st' : ServerState} (gid : String)
    (h1 : st'.studyGroups = aerase st.studyGroups gid)
    (h2 : st'.globalStudyGroups = aerase st.globalStudyGroups gid)
    (h3 : st'.groupHeap.length = st.groupHeap.length)
    (hg : GoodState st) : GoodState st' := by
  obtain ⟨he, hb, hi⟩ := hg
  refine ⟨by rw [h1, h2, he], ?_, ?_⟩
  · intro k r hr
    rw [h2] at hr
    rw [h3]
    exact hb k r (alookup_aerase_cases hr).2
  · intro k1 k2 r hr1 hr2
    rw [h2] at hr1 hr2
    exact hi k1 k2 r (alookup_aerase_cases hr1).2 (alookup_aerase_cases hr2).2

theorem heapSet_goodState (st : ServerState) (r : Nat) (g : Group)
    (hg : GoodState st) : GoodState (heapSet st r g) :=
  @goodState_frame st (heapSet st r g) rfl rfl (by simp [heapSet]) hg

theorem joinPairSession_groupFields (st : ServerState) (sid sessionId : String) :
    (joinPairSession st sid sessionId).1.studyGroups = st.studyGroups ∧
    (joinPairSession st sid sessionId).1.globalStudyGroups = st.globalStudyGroups ∧
    (joinPairSession st sid sessionId).1.groupHeap = st.groupHeap := by
  simp only [joinPairSession]
  split <;> exact ⟨rfl, rfl, rfl⟩

theorem codeChange_groupFields (st : ServerState) (sid sessionId code : String)
    (language : Option String) :
    (codeChange st sid sessionId code language).1.studyGroups = st.studyGroups ∧
    (codeChange st sid sessionId code language).1.globalStudyGroups = st.globalStudyGroups ∧
    (codeChange st sid sessionId code language).1.groupHeap = st.groupHeap := by
  simp only [codeChange]
  split <;> exact ⟨rfl, rfl, rfl⟩

theorem apiCreateGroup_goodState (st : ServerState) (name : Option String)
    (uuid8 : String) (now : Nat) (hg : GoodState st) :
    GoodState (apiCreateGroup st name uuid8 now).1 := by
  simp only [apiCreateGroup]
  exact goodState_create uuid8 _ rfl rfl rfl hg

theorem joinStudyGroup_goodState (st : ServerState) (sid groupId : String) (now : Nat)
    (hg : GoodState st) : GoodState (joinStudyGroup st sid groupId now).1 := by
  simp only [joinStudyGroup]
  split
  next r heq =>
    have hcont : acontains st.studyGroups groupId = true := by
      rw [hg.1]
      exact alookup_isSome_of_some heq
    simp only [hcont, if_true]
    exact heapSet_goodState _ _ _ (@goodState_frame st _ rfl rfl rfl hg)
  next heq =>
    exact heapSet_goodState _ _ _ (goodState_create groupId _ rfl rfl rfl hg)

theorem groupCodeChange_goodState (st : ServerState) (sid groupId code : String)
    (language : Option String) (hg : GoodState st) :
    GoodState (groupCodeChange st sid groupId code language).1 := by
  simp only [groupCodeChange]
  split
  · exact heapSet_goodState _ _ _ hg
  · exact hg

theorem sendMessage_goodState (st : ServerState) (sid groupId text : String)
    (username : Option String) (uuid : String) (now : Nat) (hg : GoodState st) :
    GoodState (sendMessage st sid groupId text username uuid now).1 := by
  simp only [sendMessage]
  split
  · exact heapSet_goodState _ _ _ hg
  · exact hg

theorem addQuestion_goodState (st : ServerState) (sid groupId text : String)
    (username : Option String) (uuid : String) (now : Nat) (hg : GoodState st) :
    GoodState (addQuestion st sid groupId text username uuid now).1 := by
  simp only [addQuestion]
  split
  · exact heapSet_goodState _ _ _ hg
  · exact hg

theorem discGroupStep_goodState (sid : String) (acc : ServerState × List Emit) (gid : String)
    (hg : GoodState acc.1) : GoodState (discGroupStep sid acc gid).1 := by
  simp only [discGroupStep]
  split
  · split
    · split
      · exact goodState_erase_both gid rfl rfl rfl (heapSet_goodState _ _ _ hg)
      · exact heapSet_goodState _ _ _ hg
    · exact hg
  · exact hg

theorem discGroupFold_goodState (sid : String) : ∀ (keys : List String)
    (acc : ServerState × List Emit), GoodState acc.1 →
    GoodState ((keys.foldl (discGroupStep sid) acc).1) := by
  intro keys
  induction keys with
  | nil => intro acc h; exact h
  | cons k ks ih =>
    intro acc h
    rw [List.foldl_cons]
    exact ih _ (discGroupStep_goodState sid acc k h)

theorem disconnectSocket_goodState (st : ServerState) (sid : String) (hg : GoodState st) :
    GoodState (disconnectSocket st sid).1 := by
  simp only [disconnectSocket]
  exact @goodState_frame _ _ rfl rfl rfl
    (discGroupFold_goodState sid _ _ (@goodState_frame st _ rfl rfl rfl hg))

theorem goodState_step (st : ServerState) (a : Action) (hg : GoodState st) :
    GoodState (step st a) := by
  cases a with
  | createGroup name uuid8 now => exact apiCreateGroup_goodState st name uuid8 now hg
  | share code language title uuid now => exact @goodState_frame st _ rfl rfl rfl hg
  | joinPair sid sessionId =>
    simp only [step]
    obtain ⟨h1, h2, h3⟩ := joinPairSession_groupFields st sid sessionId
    exact goodState_frame h1 h2 (by rw [h3]) hg
  | changeCode sid sessionId code language =>
    simp only [step]
    obtain ⟨h1, h2, h3⟩ := codeChange_groupFields st sid sessionId code language
    exact goodState_frame h1 h2 (by rw [h3]) hg
  | joinGroup sid groupId now => exact joinStudyGroup_goodState st sid groupId now hg
  | changeGroupCode sid groupId code language =>
    exact groupCodeChange_goodState st sid groupId code language hg
  | message sid groupId text username uuid now =>
    exact sendMessage_goodState st sid groupId text username uuid now hg
  | question sid groupId text username uuid now =>
    exact addQuestion_goodState st sid groupId text username uuid now hg
  | disconnect sid => exact disconnectSocket_goodState st sid hg

theorem goodState_run (acts : List Action) : GoodState (runActions acts) := by
  have hbase : GoodState initialState := by
    refine ⟨rfl, ?_, ?_⟩
    · intro gid r h
      simp [initialState, alookup] at h
    · intro g1 g2 r h1 h2
      simp [initialState, alookup] at h1
  have hall : ∀ (l : List Action) (st : ServerState), GoodState st →
      GoodState (l.foldl step st) := by
    intro l
    induction l with
    | nil => intro st h; exact h
    | cons a rest ih =>
      intro st h
      rw [List.foldl_cons]
      exact ih _ (goodState_step st a h)
  exact hall acts initialState hbase

/-! ## Deletion of a group whose last member leaves -/

theorem discGroupStep_gone (sid gid : String) (acc : ServerState × List Emit) (k : String)
    (h1 : alookup acc.1.studyGroups gid = none)
    (h2 : alookup acc.1.globalStudyGroups gid = none) :
    alookup (discGroupStep sid acc k).1.studyGroups gid = none ∧
    alookup (discGroupStep sid acc k).1.globalStudyGroups gid = none := by
  simp only [discGroupStep]
  split
  · split
    · split
      · exact ⟨alookup_aerase_none _ h1, alookup_aerase_none _ h2⟩
      · exact ⟨h1, h2⟩
    · exact ⟨h1, h2⟩
  · exact ⟨h1, h2⟩

theorem discGroupFold_gone (sid gid : String) : ∀ (keys : List String)
    (acc : ServerState × List Emit),
    alookup acc.1.studyGroups gid = none →
    alookup acc.1.globalStudyGroups gid = none →
    alookup ((keys.foldl (discGroupStep sid) acc).1).studyGroups gid = none ∧
    alookup ((keys.foldl (discGroupStep sid) acc).1).globalStudyGroups gid = none := by
  intro keys
  induction keys with
  | nil => intro acc h1 h2; exact ⟨h1, h2⟩
  | cons k ks ih =>
    intro acc h1 h2
    rw [List.foldl_cons]
    obtain ⟨g1, g2⟩ := discGroupStep_gone sid gid acc k h1 h2
    exact ih _ g1 g2

theorem discGroupStep_frame_other (sid gid k : String) (r : Nat) (g0 : Group)
    (acc : ServerState × List Emit)
    (hne : ¬ k = gid)
    (hg : GoodState acc.1)
    (hl : alookup acc.1.studyGroups gid = some r)
    (hh : heapGet acc.1 r = g0) :
    alookup (discGroupStep sid acc k).1.studyGroups gid = some r ∧
    heapGet (discGroupStep sid acc k).1 r = g0 := by
  simp only [discGroupStep]
  split
  next rk heq =>
    have hrk : ¬ rk = r := by
      intro hkr
      subst hkr
      have e1 : alookup acc.1.globalStudyGroups k = some rk := by
        rw [← hg.1]; exact heq
      have e2 : alookup acc.1.globalStudyGroups gid = some rk := by
        rw [← hg.1]; exact hl
      exact hne (hg.2.2 k gid rk e1 e2)
    split
    · split
      · refine ⟨?_, ?_⟩
        · rw [alookup_aerase_ne _ _ _ hne]
          exact hl
        · rw [← hh]
          simp only [heapGet, heapSet]
          exact getD_set_ne _ _ _ _ _ hrk
      · refine ⟨hl, ?_⟩
        · rw [← hh]
          simp only [heapGet, heapSet]
          exact getD_set_ne _ _ _ _ _ hrk
    · exact ⟨hl, hh⟩
  next => exact ⟨hl, hh⟩

theorem discGroupStep_self (sid gid : String) (r : Nat) (acc : ServerState × List Emit)
    (hl : alookup acc.1.studyGroups gid = some r)
    (husers : (heapGet acc.1 r).users.map GroupUser.id = [sid]) :
    alookup (discGroupStep sid acc gid).1.studyGroups gid = none ∧
    alookup (discGroupStep sid acc gid).1.globalStudyGroups gid = none := by
  obtain ⟨u, hu1, hu2⟩ : ∃ u, (heapGet acc.1 r).users = [u] ∧ u.id = sid := by
    cases hus : (heapGet acc.1 r).users with
    | nil => rw [hus] at husers; simp at husers
    | cons u rest =>
      rw [hus] at husers
      simp only [List.map_cons] at husers
      injection husers with ha hb
      cases rest with
      | nil => exact ⟨u, rfl, ha⟩
      | cons v r2 => simp at hb
  simp only [discGroupStep, hl, hu1, hu2, List.map_cons, List.map_nil, eraseFirstP,
    decide_True, if_true, List.contains_cons, beq_self_eq_true, Bool.true_or,
    List.length_nil, reduceIte]
  exact ⟨alookup_aerase_self _ _, alookup_aerase_self _ _⟩

theorem discGroupFold_deletes (sid gid : String) (r : Nat) (g0 : Group) :
    ∀ (keys : List String) (acc : ServerState × List Emit),
    GoodState acc.1 →
    alookup acc.1.studyGroups gid = some r →
    heapGet acc.1 r = g0 →
    g0.users.map GroupUser.id = [sid] →
    gid ∈ keys →
    alookup ((keys.foldl (discGroupStep sid) acc).1).studyGroups gid = none ∧
    alookup ((keys.foldl (discGroupStep sid) acc).1).globalStudyGroups gid = none := by
  intro keys
  induction keys with
  | nil => intro acc _ _ _ _ hmem; simp at hmem
  | cons k ks ih =>
    intro acc hg hl hh hu hmem
    rw [List.foldl_cons]
    by_cases hk : k = gid
    · subst hk
      have hself := discGroupStep_self sid k r acc hl (by rw [hh]; exact hu)
      exact discGroupFold_gone sid k ks _ hself.1 hself.2
    · have hframe := discGroupStep_frame_other sid gid k r g0 acc hk hg hl hh
      have hg' := discGroupStep_goodState sid acc k hg
      have hmem' : gid ∈ ks := by
        rcases List.mem_cons.mp hmem with h | h
        · exact absurd h.symm hk
        · exact h
      exact ih _ hg' hframe.1 hframe.2 hu hmem'

theorem not_mem_listStudyGroups {st : ServerState} {gid : String}
    (h : alookup st.globalStudyGroups gid = none) :
    gid ∉ (listStudyGroups st).map GroupListing.id := by
  intro hmem
  rw [listStudyGroups, List.map_map] at hmem
  exact (alookup_eq_none_iff _ _).mp h hmem

/-! ## Claim theorem: group registry invariant (C3) -/

/-- C3: in every reachable state, a study group present in the live
registry (with at least one member) is also present in the global
directory; and the moment a disconnect removes the last member, the group
is gone from the live registry, the global directory and the group
listing. -/
theorem c3_group_registries (acts : List Action) :
    (∀ gid r, alookup (runActions acts).studyGroups gid = some r →
      (heapGet (runActions acts) r).users ≠ [] →
      acontains (runActions acts).globalStudyGroups gid = true) ∧
    (∀ sid gid r, alookup (runActions acts).studyGroups gid = some r →
      (heapGet (runActions acts) r).users.map GroupUser.id = [sid] →
      acontains (disconnectSocket (runActions acts) sid).1.studyGroups gid = false ∧
      acontains (disconnectSocket (runActions acts) sid).1.globalStudyGroups gid = false ∧
      gid ∉ (listStudyGroups (disconnectSocket (runActions acts) sid).1).map GroupListing.id) := by
  have hg := goodState_run acts
  constructor
  · intro gid r hl _
    have : alookup (runActions acts).globalStudyGroups gid = some r := by
      rw [← hg.1]
      exact hl
    exact alookup_isSome_of_some this
  · intro sid gid r hl husers
    have hgone : alookup (disconnectSocket (runActions acts) sid).1.studyGroups gid = none ∧
        alookup (disconnectSocket (runActions acts) sid).1.globalStudyGroups gid = none := by
      simp only [disconnectSocket]
      refine discGroupFold_deletes sid gid r (heapGet (runActions acts) r) _ _
        (@goodState_frame (runActions acts) _ rfl rfl rfl hg) hl rfl husers ?_
      have : (gid, r) ∈ (runActions acts).studyGroups := alookup_some_mem hl
      exact List.mem_map.mpr ⟨(gid, r), this, rfl⟩
    refine ⟨?_, ?_, ?_⟩
    · simp [acontains, hgone.1]
    · simp [acontains, hgone.2]
    · exact not_mem_listStudyGroups hgone.2

/-- Witness for C3 at a concrete single-member group. -/
theorem c3_group_registries_witness :
    alookup (runActions [Action.joinGroup "s1" "g1" 0]).studyGroups "g1" = some 0 ∧
    (heapGet (runActions [Action.joinGroup "s1" "g1" 0]) 0).users.map GroupUser.id = ["s1"] ∧
    (acontains (disconnectSocket (runActions [Action.joinGroup "s1" "g1" 0]) "s1").1.studyGroups
        "g1" = false ∧
     acontains (disconnectSocket (runActions [Action.joinGroup "s1" "g1" 0])
        "s1").1.globalStudyGroups "g1" = false ∧
     "g1" ∉ (listStudyGroups (disconnectSocket (runActions [Action.joinGroup "s1" "g1" 0])
        "s1").1).map GroupListing.id) :=
  ⟨by decide, by decide,
   (c3_group_registries [Action.joinGroup "s1" "g1" 0]).2 "s1" "g1" 0 (by decide) (by decide)⟩

/-! ## Removal of a connection from all member lists (C4) -/

theorem heapGet_heapSet_ne (st : ServerState) (r r2 : Nat) (g : Group) (h : ¬ r = r2) :
    heapGet (heapSet st r g) r2 = heapGet st r2 := by
  simp only [heapGet, heapSet]
  exact getD_set_ne _ _ _ _ _ h

theorem heapGet_heapSet_self (st : ServerState) (r : Nat) (g : Group)
    (h : r < st.groupHeap.length) : heapGet (heapSet st r g) r = g := by
  simp only [heapGet, heapSet]
  exact getD_set_self _ _ _ _ h

theorem countP_eraseFirstP_le {α : Type} (p : α → Bool) (l : List α) :
    List.countP p (eraseFirstP p l) ≤ List.countP p l := by
  by_cases hex : ∃ x ∈ l, p x = true
  · have := countP_eraseFirstP p l hex
    omega
  · push_neg at hex
    rw [eraseFirstP_of_none p l (by simpa using hex)]

theorem not_mem_map_id_eraseFirstP (sid : String) (p : GroupUser → Bool) (l : List GroupUser)
    (h : sid ∉ l.map GroupUser.id) : sid ∉ (eraseFirstP p l).map GroupUser.id := by
  intro hmem
  obtain ⟨u, hu, hid⟩ := List.mem_map.mp hmem
  exact h (List.mem_map.mpr ⟨u, eraseFirstP_sub p l u hu, hid⟩)

theorem sid_gone_after_erase (sid : String) (l : List GroupUser)
    (hcount : List.countP (fun u => u.id = sid) l ≤ 1)
    (hmem : sid ∈ l.map GroupUser.id) :
    sid ∉ (eraseFirstP (fun u => u.id = sid) l).map GroupUser.id := by
  have hex : ∃ x ∈ l, (fun u : GroupUser => (u.id = sid : Bool)) x = true := by
    obtain ⟨u, hu, hid⟩ := List.mem_map.mp hmem
    exact ⟨u, hu, by simp [hid]⟩
  have h0 : List.countP (fun u : GroupUser => (u.id = sid : Bool))
      (eraseFirstP (fun u : GroupUser => (u.id = sid : Bool)) l) = 0 := by
    have := countP_eraseFirstP _ l hex
    omega
  intro habs
  obtain ⟨u, hu, hid⟩ := List.mem_map.mp habs
  have := List.countP_eq_zero.mp h0 u hu
  simp [hid] at this

/-- Invariant carried through the disconnect sweep of the study groups:
groups whose key is still to be processed contain at most one entry for
the leaving connection, and groups already processed contain none. -/
def GroupsSidInv (sid : String) (remaining : List String) (st : ServerState) : Prop :=
  ∀ p ∈ st.studyGroups,
    (p.1 ∈ remaining →
      List.countP (fun u => u.id = sid) (heapGet st p.2).users ≤ 1) ∧
    (p.1 ∉ remaining → sid ∉ (heapGet st p.2).users.map GroupUser.id)

theorem discGroupStep_eq_of_none (sid k : String) (acc : ServerState × List Emit)
    (hlook : alookup acc.1.studyGroups k = none) :
    discGroupStep sid acc k = acc := by
  simp only [discGroupStep, hlook]

theorem discGroupStep_eq_of_nomem (sid k : String) (acc : ServerState × List Emit) (r : Nat)
    (heq : alookup acc.1.studyGroups k = some r)
    (hcont : ((heapGet acc.1 r).users.map GroupUser.id).contains sid = false) :
    discGroupStep sid acc k = acc := by
  simp only [discGroupStep, heq, hcont, Bool.false_eq_true, if_false]

theorem discGroupStep_member_empty (sid k : String) (acc : ServerState × List Emit) (r : Nat)
    (heq : alookup acc.1.studyGroups k = some r)
    (hcont : ((heapGet acc.1 r).users.map GroupUser.id).contains sid = true)
    (hlen : (eraseFirstP (fun u => u.id = sid) (heapGet acc.1 r).users).length = 0) :
    (discGroupStep sid acc k).1.studyGroups = aerase acc.1.studyGroups k ∧
    (discGroupStep sid acc k).1.globalStudyGroups = aerase acc.1.globalStudyGroups k ∧
    (discGroupStep sid acc k).1.groupHeap = acc.1.groupHeap.set r
      { heapGet acc.1 r with
        users := eraseFirstP (fun u => u.id = sid) (heapGet acc.1 r).users } := by
  simp only [discGroupStep, heq, hcont, if_true, hlen, reduceIte]
  exact ⟨rfl, rfl, rfl⟩

theorem discGroupStep_member_nonempty (sid k : String) (acc : ServerState × List Emit)
    (r : Nat)
    (heq : alookup acc.1.studyGroups k = some r)
    (hcont : ((heapGet acc.1 r).users.map GroupUser.id).contains sid = true)
    (hlen : ¬ (eraseFirstP (fun u => u.id = sid) (heapGet acc.1 r).users).length = 0) :
    (discGroupStep sid acc k).1.studyGroups = acc.1.studyGroups ∧
    (discGroupStep sid acc k).1.globalStudyGroups = acc.1.globalStudyGroups ∧
    (discGroupStep sid acc k).1.groupHeap = acc.1.groupHeap.set r
      { heapGet acc.1 r with
        users := eraseFirstP (fun u => u.id = sid) (heapGet acc.1 r).users } := by
  simp only [discGroupStep, heq, hcont, if_true, if_neg hlen]
  exact ⟨rfl, rfl, rfl⟩

theorem discGroupStep_sidInv (sid k : String) (ks : List String)
    (acc : ServerState × List Emit)
    (hknotks : k ∉ ks)
    (hnd : (acc.1.studyGroups.map Prod.fst).Nodup)
    (hinv : GroupsSidInv sid (k :: ks) acc.1) :
    ((discGroupStep sid acc k).1.studyGroups.map Prod.fst).Nodup ∧
    GroupsSidInv sid ks (discGroupStep sid acc k).1 := by
  have hshift : ∀ (x : String), ¬ x = k → x ∉ ks → x ∉ k :: ks := by
    intro x hxk hxks hmem
    rcases List.mem_cons.mp hmem with h | h
    · exact hxk h
    · exact hxks h
  cases hlook : alookup acc.1.studyGroups k with
  | none =>
    rw [discGroupStep_eq_of_none sid k acc hlook]
    refine ⟨hnd, ?_⟩
    intro p hp
    have hpk : ¬ p.1 = k := by
      intro hk
      have : p.1 ∈ acc.1.studyGroups.map Prod.fst := List.mem_map.mpr ⟨p, hp, rfl⟩
      rw [hk] at this
      exact ((alookup_eq_none_iff _ _).mp hlook) this
    exact ⟨fun hin => (hinv p hp).1 (List.mem_cons_of_mem _ hin),
           fun hnotin => (hinv p hp).2 (hshift p.1 hpk hnotin)⟩
  | some r =>
    cases hcont : ((heapGet acc.1 r).users.map GroupUser.id).contains sid with
    | false =>
      rw [discGroupStep_eq_of_nomem sid k acc r hlook hcont]
      refine ⟨hnd, ?_⟩
      intro p hp
      refine ⟨fun hin => (hinv p hp).1 (List.mem_cons_of_mem _ hin), fun hnotin => ?_⟩
      by_cases hpk : p.1 = k
      · have hlk : alookup acc.1.studyGroups p.1 = some p.2 :=
          alookup_of_mem_nodup hnd (by rw [Prod.mk.eta]; exact hp)
        rw [hpk, hlook] at hlk
        rw [← Option.some.inj hlk]
        intro habs
        have htrue : ((heapGet acc.1 r).users.map GroupUser.id).contains sid = true :=
          List.elem_iff.mpr habs
        rw [htrue] at hcont
        exact Bool.noConfusion hcont
      · exact (hinv p hp).2 (hshift p.1 hpk hnotin)
    | true =>
      have hsidmem : sid ∈ (heapGet acc.1 r).users.map GroupUser.id :=
        List.elem_iff.mp hcont
      have hrlt : r < acc.1.groupHeap.length := by
        by_contra hge
        push_neg at hge
        have hdef : heapGet acc.1 r = default := by
          simp only [heapGet]
          exact getD_of_length_le _ _ _ hge
        rw [hdef] at hsidmem
        simp [default] at hsidmem
      have hkcount : List.countP (fun u => u.id = sid) (heapGet acc.1 r).users ≤ 1 :=
        (hinv (k, r) (alookup_some_mem hlook)).1 (List.mem_cons_self _ _)
      have hgetGen : ∀ (p2 : Nat),
          heapGet (discGroupStep sid acc k).1 p2 =
            (acc.1.groupHeap.set r
              { heapGet acc.1 r with
                users := eraseFirstP (fun u => u.id = sid) (heapGet acc.1 r).users }).getD
              p2 default := by
        intro p2
        by_cases hlen : (eraseFirstP (fun u => u.id = sid) (heapGet acc.1 r).users).length = 0
        · rw [heapGet, (discGroupStep_member_empty sid k acc r hlook hcont hlen).2.2]
        · rw [heapGet, (discGroupStep_member_nonempty sid k acc r hlook hcont hlen).2.2]
      have hget_self : heapGet (discGroupStep sid acc k).1 r =
          { heapGet acc.1 r with
            users := eraseFirstP (fun u => u.id = sid) (heapGet acc.1 r).users } := by
        rw [hgetGen r]
        exact getD_set_self _ _ _ _ hrlt
      have hget_ne : ∀ (p2 : Nat), ¬ p2 = r →
          heapGet (discGroupStep sid acc k).1 p2 = heapGet acc.1 p2 := by
        intro p2 hne
        rw [hgetGen p2, heapGet]
        exact getD_set_ne _ _ _ _ _ (fun h => hne h.symm)
      have hmain : ∀ p, p ∈ acc.1.studyGroups → ¬ (p.1 = k ∧ ¬ p.2 = r) →
          (p.1 ∈ ks →
            List.countP (fun u => u.id = sid)
              (heapGet (discGroupStep sid acc k).1 p.2).users ≤ 1) ∧
          (p.1 ∉ ks →
            sid ∉ (heapGet (discGroupStep sid acc k).1 p.2).users.map GroupUser.id) := by
        intro p hp hpkr
        by_cases hpr : p.2 = r
        · rw [hpr, hget_self]
          refine ⟨fun _ => ?_, fun _ => ?_⟩
          · exact le_trans (countP_eraseFirstP_le _ _) hkcount
          · exact sid_gone_after_erase sid _ hkcount hsidmem
        · have hpk : ¬ p.1 = k := fun hk => hpkr ⟨hk, hpr⟩
          rw [hget_ne p.2 hpr]
          exact ⟨fun hin => (hinv p hp).1 (List.mem_cons_of_mem _ hin),
                 fun hnotin => (hinv p hp).2 (hshift p.1 hpk hnotin)⟩
      have hkey_ref : ∀ p, p ∈ acc.1.studyGroups → p.1 = k → p.2 = r := by
        intro p hp hpk
        have hlk : alookup acc.1.studyGroups p.1 = some p.2 :=
          alookup_of_mem_nodup hnd (by rw [Prod.mk.eta]; exact hp)
        rw [hpk, hlook] at hlk
        exact (Option.some.inj hlk).symm
      by_cases hlen : (eraseFirstP (fun u => u.id = sid) (heapGet acc.1 r).users).length = 0
      · obtain ⟨hsg, hgg, hheap⟩ := discGroupStep_member_empty sid k acc r hlook hcont hlen
        constructor
        · rw [hsg]
          exact aerase_map_fst_nodup k hnd
        · intro p hp
          rw [hsg] at hp
          obtain ⟨hpmem, hpk⟩ := mem_aerase hp
          exact hmain p hpmem (fun hc => hpk hc.1)
      · obtain ⟨hsg, hgg, hheap⟩ := discGroupStep_member_nonempty sid k acc r hlook hcont hlen
        constructor
        · rw [hsg]
          exact hnd
        · intro p hp
          rw [hsg] at hp
          exact hmain p hp (fun hc => hc.2 (hkey_ref p hp hc.1))

theorem discGroupFold_sidInv (sid : String) : ∀ (keys : List String)
    (acc : ServerState × List Emit),
    keys.Nodup →
    (acc.1.studyGroups.map Prod.fst).Nodup →
    GroupsSidInv sid keys acc.1 →
    ∀ p ∈ ((keys.foldl (discGroupStep sid) acc).1).studyGroups,
      sid ∉ ((heapGet ((keys.foldl (discGroupStep sid) acc).1) p.2).users.map GroupUser.id) := by
  intro keys
  induction keys with
  | nil =>
    intro acc _ _ hinv p hp
    exact (hinv p hp).2 (by simp)
  | cons k ks ih =>
    intro acc hnd1 hnd2 hinv
    rw [List.foldl_cons]
    obtain ⟨hnd2', hinv'⟩ :=
      discGroupStep_sidInv sid k ks acc (List.nodup_cons.mp hnd1).1 hnd2 hinv
    exact ih _ (List.nodup_cons.mp hnd1).2 hnd2' hinv'

theorem discGroupStep_pairSessions (sid : String) (acc : ServerState × List Emit)
    (gid : String) :
    (discGroupStep sid acc gid).1.pairSessions = acc.1.pairSessions := by
  simp only [discGroupStep, heapSet]
  split
  · split
    · split <;> rfl
    · rfl
  · rfl

theorem discGroupFold_pairSessions (sid : String) : ∀ (keys : List String)
    (acc : ServerState × List Emit),
    ((keys.foldl (discGroupStep sid) acc).1).pairSessions = acc.1.pairSessions := by
  intro keys
  induction keys with
  | nil => intro acc; rfl
  | cons k ks ih =>
    intro acc
    rw [List.foldl_cons, ih]
    exact discGroupStep_pairSessions sid acc k

theorem disconnectSocket_pairSessions (st : ServerState) (sid : String) :
    (disconnectSocket st sid).1.pairSessions = pairsSweep st sid := by
  simp only [disconnectSocket]
  rw [discGroupFold_pairSessions]

theorem discGroupStep_noop (sid : String) (acc : ServerState × List Emit) (k : String)
    (h : ∀ p ∈ acc.1.studyGroups, sid ∉ ((heapGet acc.1 p.2).users.map GroupUser.id)) :
    discGroupStep sid acc k = acc := by
  simp only [discGroupStep]
  split
  next r heq =>
    have hnot := h (k, r) (alookup_some_mem heq)
    split
    next hcont => exact absurd (List.elem_iff.mp hcont) hnot
    next => rfl
  next => rfl

theorem discGroupFold_noop (sid : String) : ∀ (keys : List String)
    (acc : ServerState × List Emit),
    (∀ p ∈ acc.1.studyGroups, sid ∉ ((heapGet acc.1 p.2).users.map GroupUser.id)) →
    keys.foldl (discGroupStep sid) acc = acc := by
  intro keys
  induction keys with
  | nil => intro acc _; rfl
  | cons k ks ih =>
    intro acc h
    rw [List.foldl_cons, discGroupStep_noop sid acc k h]
    exact ih acc h

/-! ## Claim theorems: leave semantics (C4) -/

/-- C4 counterexample: a connection that joined the same pair session
twice still appears in the member list after leave completes, because the
disconnect sweep removes only the first occurrence per room. -/
theorem c4_counterexample :
    (alookup (runActions [Action.joinPair "s1" "room", Action.joinPair "s1" "room",
        Action.disconnect "s1"]).pairSessions "room").map PairSession.users =
      some ["s1"] := by
  decide

/-- C4 (amended): leave removes the first matching occurrence of the
connection from each pair session and study group; hence when the
connection occurs at most once per member list (the case for distinct
joins), after leave it appears in no pair session and no study group
member list; and leave for a connection that is a member of no room
changes none of the registries, so repeated calls are safe. -/
theorem c4_leave_removes (st : ServerState) (sid : String)
    (hpair : ∀ p ∈ st.pairSessions, List.countP (fun u => u = sid) p.2.users ≤ 1)
    (hgrp : ∀ p ∈ st.studyGroups,
      List.countP (fun u => u.id = sid) (heapGet st p.2).users ≤ 1)
    (hnodup : (st.studyGroups.map Prod.fst).Nodup) :
    (∀ p ∈ (disconnectSocket st sid).1.pairSessions, sid ∉ p.2.users) ∧
    (∀ p ∈ (disconnectSocket st sid).1.studyGroups,
      sid ∉ ((heapGet (disconnectSocket st sid).1 p.2).users.map GroupUser.id)) ∧
    ((∀ p ∈ st.pairSessions, sid ∉ p.2.users) →
     (∀ p ∈ st.studyGroups, sid ∉ ((heapGet st p.2).users.map GroupUser.id)) →
     (disconnectSocket st sid).1.pairSessions = st.pairSessions ∧
     (disconnectSocket st sid).1.studyGroups = st.studyGroups ∧
     (disconnectSocket st sid).1.globalStudyGroups = st.globalStudyGroups ∧
     (disconnectSocket st sid).1.groupHeap = st.groupHeap) := by
  refine ⟨?_, ?_, ?_⟩
  · -- no pair session still lists the connection
    rw [disconnectSocket_pairSessions]
    intro p hp
    unfold pairsSweep at hp
    obtain ⟨q, hq, hqeq⟩ := List.mem_map.mp hp
    rw [← hqeq]
    by_cases hmem : sid ∈ q.2.users
    · simp only [if_pos hmem]
      have hcount := hpair q hq
      have hex : ∃ x ∈ q.2.users, (fun u : String => (u = sid : Bool)) x = true :=
        ⟨sid, hmem, by simp⟩
      have h0 : List.countP (fun u : String => (u = sid : Bool))
          (eraseFirstP (fun u : String => (u = sid : Bool)) q.2.users) = 0 := by
        have := countP_eraseFirstP _ q.2.users hex
        omega
      intro habs
      have := List.countP_eq_zero.mp h0 sid habs
      simp at this
    · simp only [if_neg hmem]
      exact hmem
  · -- no study group still lists the connection
    simp only [disconnectSocket]
    intro p hp
    refine discGroupFold_sidInv sid _ _ hnodup hnodup ?_ p hp
    intro q hq
    refine ⟨fun _ => hgrp q hq, fun hnotin => ?_⟩
    exact absurd (List.mem_map.mpr ⟨q, hq, rfl⟩) hnotin
  · -- leave for a non-member is a no-op on all registries
    intro hp1 hp2
    have hpairs : pairsSweep st sid = st.pairSessions := by
      unfold pairsSweep
      have hcongr : ∀ p ∈ st.pairSessions, (p.1, if sid ∈ p.2.users
          then { p.2 with users := eraseFirstP (fun u => u = sid) p.2.users }
          else p.2) = p := by
        intro p hp
        rw [if_neg (hp1 p hp)]
      rw [List.map_congr_left hcongr]
      simp
    rw [disconnectSocket_state_eq,
      discGroupFold_noop sid (st.studyGroups.map Prod.fst)
        ({ st with pairSessions := pairsSweep st sid }, []) hp2]
    exact ⟨hpairs, rfl, rfl, rfl⟩

/-- Witness for C4 at a concrete two-group state: after connection a
leaves, the group it shared with connection b no longer lists it. -/
theorem c4_leave_removes_witness :
    "a" ∉ ((heapGet (disconnectSocket (runActions [Action.joinPair "a" "k",
        Action.joinGroup "a" "g" 0, Action.joinGroup "b" "g" 1]) "a").1 0).users.map
        GroupUser.id) :=
  (c4_leave_removes (runActions [Action.joinPair "a" "k",
      Action.joinGroup "a" "g" 0, Action.joinGroup "b" "g" 1]) "a"
    (by decide) (by decide) (by decide)).2.1 ("g", 0) (by decide)

end SmartCode
